import Mathlib

/-!
Shallow embedding of the task orchestration and self-repair engine of the
`cafe` repository, together with proofs of the spec claims C1 .. C10.

The embedding follows the Python source:
  * src/core/task_database.py       (TaskStatus, Task, TaskDatabase)
  * src/core/project_environment.py (ProjectEnvironment)
  * src/core/auto_plan_agent.py     (AutoPlanAgent.execute_plan / repair_failed_task)
  * src/core/tools/python_project_execute.py (the project executor driven by the agent)

Conventions:
  * SQLite rows become Lean lists kept in insertion order; the
    `task_dependencies` edge table is joined back into each `Task` value,
    exactly as `get_task` / `get_pending_tasks` do in the source.
  * Timestamps are irrelevant to every claim and are dropped (`created_at`,
    `updated_at`) or passed in as plain data (`timestamp` of an error-history
    row).
  * External effects (subprocess runs, pip installs, LLM and pattern-store
    calls) are parameterised by oracle functions so that the control flow of
    the source is preserved while its environment stays abstract.
-/

namespace Cafe

/-- Status enum from task_database.py (`TaskStatus`). -/
inductive TaskStatus where
  | pending
  | running
  | completed
  | failed
  | canceled
  deriving DecidableEq, Repr

/-- A task row joined with its dependency edges, as produced by
`TaskDatabase.get_task` / `get_pending_tasks` (task_database.py).
`result` is `none` for SQL NULL. -/
structure Task where
  id : String
  plan_id : String
  description : String
  code : Option String
  dependencies : List String
  status : TaskStatus
  result : Option String
  deriving DecidableEq, Repr

/-- One row of the `error_history` table (task_database.py).
`timestamp` is the insertion time, abstracted to a number. -/
structure ErrorHistoryEntry where
  task_id : String
  error_message : String
  attempted_fix : Option String
  success : Bool
  timestamp : Nat
  deriving DecidableEq, Repr

/-- The persistent store: the `tasks` rows (insertion order preserved, each
joined with its dependency edges) and the `error_history` rows.  The `plans`
table plays no role in any claim beyond the `plan_id` foreign key kept inside
each task. -/
structure TaskDatabase where
  tasks : List Task
  errorHistory : List ErrorHistoryEntry
  deriving DecidableEq, Repr

/-- `TaskDatabase.get_task`: SELECT by primary key; the first row whose id
matches (SQLite primary keys are unique, so at most one row matches). -/
def get_task (db : TaskDatabase) (task_id : String) : Option Task :=
  db.tasks.find? (fun t => t.id = task_id)

/-- `TaskDatabase.get_tasks_by_plan`: all rows of one plan, insertion order. -/
def get_tasks_by_plan (db : TaskDatabase) (plan_id : String) : List Task :=
  db.tasks.filter (fun t => t.plan_id = plan_id)

/-- `TaskDatabase.get_pending_tasks`: SELECT * FROM tasks WHERE status = pending. -/
def get_pending_tasks (db : TaskDatabase) : List Task :=
  db.tasks.filter (fun t => t.status = TaskStatus.pending)

/-- The dependency check inside `TaskDatabase.get_runnable_tasks`: every
dependency id must resolve through `get_task` to a row whose status is
completed (`if not dep_task or dep_task.status != TaskStatus.COMPLETED`). -/
def dependencies_met (db : TaskDatabase) (t : Task) : Bool :=
  t.dependencies.all (fun dep_id =>
    match get_task db dep_id with
    | some dep_task => dep_task.status = TaskStatus.completed
    | none => false)

/-- `TaskDatabase.get_runnable_tasks` (task_database.py lines 370-387). -/
def get_runnable_tasks (db : TaskDatabase) : List Task :=
  (get_pending_tasks db).filter (dependencies_met db)

/-- `TaskDatabase.add_task` (task_database.py lines 166-202).  The fresh uuid
is passed in as `task_id`.  The source INSERTs the task row and one edge per
dependency id without any validation of the dependency ids (SQLite foreign
keys are not enabled, so the INSERTs always succeed); the new row starts
pending with NULL result, exactly as the `Task` constructor builds it. -/
def add_task (db : TaskDatabase) (description plan_id : String)
    (dependencies : List String) (code : Option String) (task_id : String) :
    TaskDatabase × String :=
  ({ db with
      tasks := db.tasks ++
        [{ id := task_id, plan_id := plan_id, description := description,
           code := code, dependencies := dependencies,
           status := TaskStatus.pending, result := none }] },
   task_id)

/-- `TaskDatabase.update_task`: sets the status and/or result of a row; a
`none` argument leaves the field unchanged (the Python default `None`).  The
source raises for an unknown id; every call site in the orchestrator passes an
id read from the store, so that branch is never taken and the row map below is
the exercised behaviour. -/
def update_task (db : TaskDatabase) (task_id : String)
    (status : Option TaskStatus) (result : Option String) : TaskDatabase :=
  { db with
    tasks := db.tasks.map (fun t =>
      if t.id = task_id then
        { t with
          status := status.getD t.status,
          result := match result with
            | some r => some r
            | none => t.result }
      else t) }

/-- `TaskDatabase.update_task_code`: replaces the code of a row (same remark
about the unknown-id branch as for `update_task`). -/
def update_task_code (db : TaskDatabase) (task_id : String) (code : String) :
    TaskDatabase :=
  { db with
    tasks := db.tasks.map (fun t =>
      if t.id = task_id then { t with code := some code } else t) }

/-- `TaskDatabase.add_error_history` (task_database.py lines 389-406): a bare
INSERT into `error_history`; nothing in the repository ever UPDATEs or
DELETEs that table. -/
def add_error_history (db : TaskDatabase) (task_id error_message : String)
    (attempted_fix : Option String) (success : Bool) (timestamp : Nat) :
    TaskDatabase :=
  { db with
    errorHistory := db.errorHistory ++
      [{ task_id := task_id, error_message := error_message,
         attempted_fix := attempted_fix, success := success,
         timestamp := timestamp }] }

/-! ## ProjectEnvironment (src/core/project_environment.py) -/

/-- The single-quote character, written via its code point to keep the file
free of quote literals. -/
def qc : Char := Char.ofNat 39

/-- The fixed text matched by the regex `No module named '([^']+)'` of
`ProjectEnvironment.extract_missing_packages`, up to the capture group. -/
def noModuleLit : List Char := "No module named ".data ++ [qc]

/-- The scanning loop of `re.findall` for the pattern
`No module named '([^']+)'`: at each position the full pattern must match
(literal text, then one or more non-quote characters, then the closing
quote); on a match the capture is emitted and scanning resumes after the
match, otherwise scanning advances one character.  `fuel` bounds the
recursion and is instantiated with the input length. -/
def scanNoModule : Nat → List Char → List (List Char)
  | 0, _ => []
  | _ + 1, [] => []
  | fuel + 1, c :: cs =>
    if noModuleLit.isPrefixOf (c :: cs) then
      let rest := (c :: cs).drop noModuleLit.length
      let cap := rest.takeWhile (fun ch => ch ≠ qc)
      match rest.drop cap.length with
      | _ :: rest2 =>
        if cap = [] then scanNoModule fuel cs
        else cap :: scanNoModule fuel rest2
      | [] => scanNoModule fuel cs
    else scanNoModule fuel cs

/-- `match.split('.')[0]`: the module name truncated at the first dot. -/
def rootPackage (m : String) : String :=
  String.mk (m.data.takeWhile (fun c => c ≠ '.'))

/-- The alias table of `extract_missing_packages`:
`if package == "bs4": package = "beautifulsoup4"`. -/
def aliasPackage (p : String) : String :=
  if p = "bs4" then "beautifulsoup4" else p

/-- The static table of `ProjectEnvironment._is_stdlib_module`
(project_environment.py lines 455-468). -/
def stdlib_modules : List String :=
  ["os", "sys", "math", "random", "datetime", "time", "json",
   "csv", "re", "collections", "itertools", "functools", "io",
   "pathlib", "shutil", "glob", "argparse", "logging", "unittest",
   "threading", "multiprocessing", "subprocess", "socket", "email",
   "smtplib", "urllib", "http", "xml", "html", "tkinter", "sqlite3",
   "hashlib", "uuid", "tempfile", "copy", "traceback", "gc", "inspect",
   "warnings", "exceptions", "error", "errors", "exception", "warning"]

/-- `ProjectEnvironment._is_stdlib_module`. -/
def is_stdlib_module (module_name : String) : Bool :=
  stdlib_modules.contains module_name

/-- `ProjectEnvironment.extract_missing_packages`
(project_environment.py lines 425-453): find every regex match, truncate each
capture to its root package, apply the bs4 alias, and keep only non-stdlib
names, in that order. -/
def extract_missing_packages (error_message : String) : List String :=
  (((scanNoModule error_message.data.length error_message.data).map
      (fun m => aliasPackage (rootPackage (String.mk m)))).filter
    (fun p => !(is_stdlib_module p)))

/-- The mutable state of one `ProjectEnvironment` that the claims are about:
the in-memory `installed_packages` set (kept as a deduplicated list) and the
content of the `installed_packages.json` file on disk (`none` before the
first `_save_installed_packages`).  The `requirements.txt` projection written
by `update_requirements_file` is derived from `installed_packages` and holds
no state of its own. -/
structure EnvState where
  installed_packages : List String
  disk_packages : Option (List String)
  deriving DecidableEq, Repr

/-- External outcomes consumed by the environment, keeping the source's
control flow while abstracting the processes it spawns:
  * `import_probe p`   — the `python -c "import p"` probe of
    `is_package_installed` exits with 0;
  * `install_method p i` — install strategy `i` (0 = venv pip, 1 = system
    python targeting the venv, 2 = direct shell command) succeeds for `p`;
    an exception inside a strategy is caught by the source and counts as
    failure, so `false` covers both. -/
structure EnvOracle where
  import_probe : String → Bool
  install_method : String → Nat → Bool

/-- `ProjectEnvironment.is_package_installed`: cache lookup first, then the
actual import probe. -/
def is_package_installed (o : EnvOracle) (env : EnvState) (p : String) : Bool :=
  env.installed_packages.contains p || o.import_probe p

/-- `_save_installed_packages`: dump the whole set to disk. -/
def save_installed_packages (env : EnvState) : EnvState :=
  { env with disk_packages := some env.installed_packages }

/-- The method loop of `install_package`: try strategies 0, 1, 2 in order,
return the index of the first that succeeds. -/
def firstInstallMethod (o : EnvOracle) (p : String) : Option Nat :=
  if o.install_method p 0 then some 0
  else if o.install_method p 1 then some 1
  else if o.install_method p 2 then some 2
  else none

/-- `ProjectEnvironment.install_package`
(project_environment.py lines 217-247): skip if already installed; otherwise
try the three strategies in order and, on the first success, add the package
to `installed_packages` and immediately persist the set; return false only
when every strategy failed. -/
def install_package (o : EnvOracle) (env : EnvState) (p : String) :
    EnvState × Bool :=
  if is_package_installed o env p then (env, true)
  else
    match firstInstallMethod o p with
    | some _ =>
      (save_installed_packages
        { env with installed_packages := env.installed_packages ++ [p] }, true)
    | none => (env, false)

/-- `ProjectEnvironment.install_requirements`
(project_environment.py lines 296-304): install each package sequentially;
the overall flag is true only when every install succeeded, and packages
installed before a failure are kept. -/
def install_requirements (o : EnvOracle) (env : EnvState)
    (requirements : List String) : EnvState × Bool :=
  requirements.foldl
    (fun (acc : EnvState × Bool) p =>
      let r := install_package o acc.1 p
      (r.1, acc.2 && r.2))
    (env, true)

/-! ## Orchestrator (src/core/auto_plan_agent.py), driving the executor
(src/core/tools/python_project_execute.py) -/

/-- Which part of the orchestrator triggered an action: the top-level
execute loop of `execute_plan`, or one of the three strategies of
`repair_failed_task`. -/
inductive Branch where
  | top
  | learned
  | dep
  | gen
  deriving DecidableEq, Repr

/-- Observable actions of the orchestrator, recorded in order.  `exec` is one
invocation of the project executor on a task (at least one execution of the
task's code); the other constructors record port calls and store writes. -/
inductive Event where
  | exec (b : Branch) (task_id : String) (success : Bool)
  | queryFix (task_id : String)
  | updateCode (b : Branch) (task_id : String) (code : String)
  | installPkgs (packages : List String)
  | storePattern (b : Branch) (task_id : String)
  | llmGenerate (task_id : String)
  | codeGen (task_id : String) (ok : Bool)
  deriving DecidableEq, Repr

/-- The branch an event belongs to (`queryFix` is the pattern-port query of
the learned strategy, `installPkgs` the install of the dependency strategy,
`llmGenerate` the LLM call of the generative strategy). -/
def Event.branch : Event → Branch
  | .exec b _ _ => b
  | .queryFix _ => .learned
  | .updateCode b _ _ => b
  | .installPkgs _ => .dep
  | .storePattern b _ => b
  | .llmGenerate _ => .gen
  | .codeGen _ _ => .top

/-- `graph_rag.get_recommended_fix` result: fixed code with a confidence
score (modelled over ℚ; the threshold 0.75 is exact in binary floating
point, so the strict comparison of the source is preserved). -/
structure RecommendedFix where
  fixed_code : String
  confidence : ℚ
  deriving DecidableEq, Repr

/-- One outcome of invoking the project executor on a task: whether the run
succeeded and its payload (stdout on success, the error text on failure).
The executor's internal install-and-retry loop
(python_project_execute.py lines 146-204) is abstracted into this single
outcome, so one `exec` event stands for at least one — up to three — actual
executions of the task's code.  Because that internal loop consumes
missing-module stderr itself (installing and re-running), the failure
payloads the wired executor can actually store are raw non-module stderr,
its install-failure message, or its max-attempts message — never text still
matching `No module named '...'`.  Universal theorems below quantify over
all outcomes; concrete scenario worlds use only payloads the wired executor
can produce. -/
structure ExecOutcome where
  success : Bool
  payload : String

/-- The external collaborators of the orchestrator, as oracle functions:
  * `graph_rag` — whether a pattern-learning manager is configured;
  * `recommended_fix errText code context` — the fix (if any) returned by
    `get_recommended_fix`;
  * `llm_fixed_code code errText` — the repaired source produced by
    `llm.generate_code` on the repair prompt built from `code` and `errText`;
  * `exec_outcome n` — the outcome of the n-th executor invocation;
  * `codegen task_id` — the code produced by the planner's `generate_code`
    command for a task, `none` on generation failure;
  * `envo` — the environment's process-level oracle. -/
structure World where
  graph_rag : Bool
  recommended_fix : String → Option String → String → Option RecommendedFix
  llm_fixed_code : Option String → String → String
  exec_outcome : Nat → ExecOutcome
  codegen : String → Option String
  envo : EnvOracle

/-- The state threaded through the orchestrator: the task store, the plan's
environment, the number of executor invocations so far (indexing
`exec_outcome`), and the event trace. -/
structure OrchState where
  db : TaskDatabase
  env : EnvState
  execCount : Nat
  trace : List Event

/-- `ToolResult` from base_tool.py. -/
structure ToolResult where
  success : Bool
  result : Option String
  error : Option String

/-- Append events to the trace. -/
def addTrace (s : OrchState) (es : List Event) : OrchState :=
  { s with trace := s.trace ++ es }

/-- `PythonProjectExecuteTool._handle_execute_task`
(python_project_execute.py lines 82-211), as invoked through
`project_executor.execute(command="execute_task", ...)`: missing task or
missing code fail without running anything; otherwise the task is marked
running, the script is executed (outcome from the oracle), and the task is
marked completed with stdout, or failed with the error text.  The internal
install-and-retry loop is folded into the single oracle outcome (see
`ExecOutcome` for what failure payloads are realisable). -/
def executor_execute_task (w : World) (b : Branch) (s : OrchState)
    (task_id : String) : OrchState × ToolResult :=
  match get_task s.db task_id with
  | none =>
    (s, { success := false, result := none,
          error := some ("Task with ID " ++ task_id ++ " not found") })
  | some t =>
    match t.code with
    | none =>
      (s, { success := false, result := none,
            error := some ("Task " ++ task_id ++ " has no code to execute") })
    | some _ =>
      let out := w.exec_outcome s.execCount
      let db1 := update_task s.db task_id (some TaskStatus.running) none
      if out.success then
        ({ s with
            db := update_task db1 task_id (some TaskStatus.completed) (some out.payload),
            execCount := s.execCount + 1,
            trace := s.trace ++ [Event.exec b task_id true] },
         { success := true, result := some out.payload, error := none })
      else
        ({ s with
            db := update_task db1 task_id (some TaskStatus.failed) (some out.payload),
            execCount := s.execCount + 1,
            trace := s.trace ++ [Event.exec b task_id false] },
         { success := false, result := none, error := some out.payload })

/-- The shared tail of every repair strategy: run the executor once; on
success persist status completed with the run's result (the
`update_task(task_id, COMPLETED, execute_result.result)` of each strategy)
and record the strategy's pattern-store events; on failure change nothing
further.  Returns the executor's `ToolResult`. -/
def exec_and_complete (w : World) (b : Branch) (s : OrchState)
    (task_id : String) (storeEvents : List Event) : OrchState × ToolResult :=
  let er := executor_execute_task w b s task_id
  if er.2.success then
    (addTrace
      { er.1 with
        db := update_task er.1.db task_id (some TaskStatus.completed) er.2.result }
      storeEvents, er.2)
  else er

/-- Strategy wrapper shared by the learned-fix and dependency-fix
strategies: run the executor tail and translate its outcome into `some true`
(stop the repair with success) or `none` (fall through to the next
strategy). -/
def run_strategy (w : World) (b : Branch) (s : OrchState) (task_id : String)
    (storeEvents : List Event) : OrchState × Option Bool :=
  let er := exec_and_complete w b s task_id storeEvents
  if er.2.success then (er.1, some true) else (er.1, none)

/-- Tail of the generative-repair strategy: like `run_strategy`, but a
failed re-execution marks the task failed with the new error
(`Repair attempt failed: ...`) and ends the repair with false. -/
def run_gen_tail (w : World) (s : OrchState) (task_id : String)
    (storeEvents : List Event) : OrchState × Bool :=
  let er := exec_and_complete w Branch.gen s task_id storeEvents
  if er.2.success then (er.1, true)
  else
    ({ er.1 with
        db := update_task er.1.db task_id (some TaskStatus.failed)
          (some ("Repair attempt failed: " ++ er.2.error.getD "")) }, false)

/-- The learned-fix strategy of `repair_failed_task`
(auto_plan_agent.py lines 218-264): when a pattern manager is configured,
query it for a recommended fix; apply the fix only when its confidence is
strictly greater than 0.75, by persisting the fixed code and re-executing;
on success mark the task completed, record the pattern, and stop with true;
any other path falls through (`none`).  `task` is the snapshot read at the
top of `repair_failed_task`, so `task.result` is the original error text and
`task.code` the original code, as in the source. -/
def learned_phase (w : World) (s : OrchState) (task : Task) :
    OrchState × Option Bool :=
  if w.graph_rag then
    let s1 := addTrace s [Event.queryFix task.id]
    match w.recommended_fix (task.result.getD "") task.code task.description with
    | some fix =>
      if fix.confidence > (3 : ℚ) / 4 then
        let s2 := { s1 with
          db := update_task_code s1.db task.id fix.fixed_code,
          trace := s1.trace ++ [Event.updateCode Branch.learned task.id fix.fixed_code] }
        run_strategy w Branch.learned s2 task.id
          [Event.storePattern Branch.learned task.id]
      else (s1, none)
    | none => (s1, none)
  else (s, none)

/-- The dependency-fix strategy of `repair_failed_task`
(auto_plan_agent.py lines 266-301): extract missing packages from the error
text; when some are found, install them (the install result is not
inspected) and re-execute once; on success mark the task completed, record a
missing_package pattern when a pattern manager is configured, and stop with
true; otherwise fall through. -/
def dep_phase (w : World) (s : OrchState) (task : Task) :
    OrchState × Option Bool :=
  let missing := extract_missing_packages (task.result.getD "")
  if missing = [] then (s, none)
  else
    let s1 := { s with
      env := (install_requirements w.envo s.env missing).1,
      trace := s.trace ++ [Event.installPkgs missing] }
    run_strategy w Branch.dep s1 task.id
      (if w.graph_rag then [Event.storePattern Branch.dep task.id] else [])

/-- The generative-repair strategy of `repair_failed_task`
(auto_plan_agent.py lines 303-372): always ask the LLM for fixed code,
persist it, and re-execute; on success mark completed (recording the pattern
when a manager is configured) and return true; on failure mark the task
failed with the new error and return false. -/
def gen_phase (w : World) (s : OrchState) (task : Task) : OrchState × Bool :=
  let s1 := addTrace s [Event.llmGenerate task.id]
  let fixed := w.llm_fixed_code task.code (task.result.getD "")
  let s2 := { s1 with
    db := update_task_code s1.db task.id fixed,
    trace := s1.trace ++ [Event.updateCode Branch.gen task.id fixed] }
  run_gen_tail w s2 task.id
    (if w.graph_rag then [Event.storePattern Branch.gen task.id] else [])

/-- `AutoPlanAgent.repair_failed_task` (auto_plan_agent.py lines 205-372):
fetch the task (a missing id would crash in the source: `none` here); a task
that is not failed returns true immediately; otherwise run the three
strategies in order, stopping at the first that succeeds. -/
def repair_failed_task (w : World) (s : OrchState) (task_id : String) :
    Option (OrchState × Bool) :=
  match get_task s.db task_id with
  | none => none
  | some task =>
    if task.status ≠ TaskStatus.failed then some (s, true)
    else
      let lp := learned_phase w s task
      match lp.2 with
      | some b => some (lp.1, b)
      | none =>
        let dp := dep_phase w lp.1 task
        match dp.2 with
        | some b => some (dp.1, b)
        | none => some (gen_phase w dp.1 task)

/-- The execute-repair loop of `execute_plan`
(auto_plan_agent.py lines 140-195): up to `max_repair_attempts = 3`
iterations; each iteration invokes the executor once and stops on success;
on failure, while attempts remain, `repair_failed_task` is called (its
boolean result is only logged) and the loop continues.  `remaining` is the
number of loop iterations still allowed.  The first-success learning calls
(module extraction, template storage) are best-effort external writes with
no effect on this state and are omitted. -/
def task_attempt_loop (w : World) (task_id : String) :
    Nat → OrchState → OrchState
  | 0, s => s
  | remaining + 1, s =>
    let (s1, r) := executor_execute_task w Branch.top s task_id
    if r.success then s1
    else
      if remaining > 0 then
        match repair_failed_task w s1 task_id with
        | some (s2, _) => task_attempt_loop w task_id remaining s2
        | none => s1
      else s1

/-- One iteration of the task loop of `execute_plan`
(auto_plan_agent.py lines 112-195) for the snapshot task `t` (the snapshot
list is read once, before the loop): skip tasks that were not pending in the
snapshot; generate code when the snapshot has none (on generation failure
mark the task failed and continue to the next task); then run the
execute-repair loop. -/
def run_task (w : World) (s : OrchState) (t : Task) : OrchState :=
  if t.status = TaskStatus.pending then
    match t.code with
    | none =>
      match w.codegen t.id with
      | none =>
        { s with
          db := update_task s.db t.id (some TaskStatus.failed)
            (some "Failed to generate code"),
          trace := s.trace ++ [Event.codeGen t.id false] }
      | some c =>
        let s := { s with
          db := update_task_code s.db t.id c,
          trace := s.trace ++ [Event.codeGen t.id true] }
        task_attempt_loop w t.id 3 s
    | some _ => task_attempt_loop w t.id 3 s
  else s

/-- The driving loop of `execute_plan` over the snapshot list
`tasks = self.task_db.get_tasks_by_plan(plan_id)` read once before the
loop: each snapshot task is processed in insertion order.  Note that the
loop never consults `get_runnable_tasks`. -/
def execute_plan_core (w : World) (db : TaskDatabase) (env : EnvState)
    (plan_id : String) : OrchState :=
  (get_tasks_by_plan db plan_id).foldl (run_task w)
    { db := db, env := env, execCount := 0, trace := [] }

/-- Number of `exec` events of branch `b` in a trace. -/
def execCountB (tr : List Event) (b : Branch) : Nat :=
  (tr.filter (fun e =>
    match e with
    | Event.exec b2 _ _ => b2 = b
    | _ => false)).length

/-- Number of `exec` events for a given task in a trace (any branch). -/
def execCountTask (tr : List Event) (task_id : String) : Nat :=
  (tr.filter (fun e =>
    match e with
    | Event.exec _ tid _ => tid = task_id
    | _ => false)).length

/-- Whether an event is a successful executor run. -/
def Event.isSuccExec : Event → Bool
  | .exec _ _ ok => ok
  | _ => false

/-- Whether an event is an executor run. -/
def Event.isExec : Event → Bool
  | .exec _ _ _ => true
  | _ => false

/-- Number of executor runs in a trace. -/
def countExec (tr : List Event) : Nat :=
  (tr.filter Event.isExec).length

/-! ## Remaining definitions: environment operations and concrete scenarios -/

/-- The `No module named '<m>'` occurrences of an error text together with
the arbitrary text that follows each of them: `occSep [(m₁, sep₁), ...]` is
`occurrence(m₁) ++ sep₁ ++ occurrence(m₂) ++ sep₂ ++ ...`.  Prefixed with a
leading arbitrary text this represents any error text around a list of
occurrences (used to state C7 for every occurrence in arbitrary
surrounding text at once). -/
def occSep : List (List Char × List Char) → List Char
  | [] => []
  | (m, sep) :: ps => noModuleLit ++ m ++ qc :: (sep ++ occSep ps)

/-- The while loop of
`ProjectEnvironment.execute_with_auto_dependency_resolution`
(project_environment.py lines 470-511), restricted to its effect on the
environment state: run the code (`execRes attempt` gives the outcome and
stderr of the attempt); stop on success; stop when no missing package is
found in the stderr; otherwise install the missing packages and retry,
returning the install failure only when the budget is spent.  The boolean
is the overall success flag. -/
def autoDepLoop (o : EnvOracle) (execRes : Nat → Bool × String) :
    Nat → Nat → EnvState → EnvState × Bool
  | 0, _, env => (env, false)
  | remaining + 1, attempt, env =>
    let r := execRes attempt
    if r.1 then (env, true)
    else
      let missing := extract_missing_packages r.2
      if missing = [] then (env, false)
      else
        let inst := install_requirements o env missing
        if !inst.2 && remaining = 0 then (inst.1, false)
        else autoDepLoop o execRes remaining (attempt + 1) inst.1

/-- The operations of `ProjectEnvironment` that can interact with
`installed_packages` (the remaining methods are pure path/format helpers or
script writes that never touch the package set):
  * `installPackage` / `installRequirements` — the two install entry points;
  * `executeCode deps` — `execute_code`, whose only state effect is the
    up-front `install_requirements(dependencies)` when a dependency list is
    given (`auto_install` is true by construction);
  * `executeWithAutoDeps` — the auto-resolution loop above;
  * `executeScript` — runs a script, no package-set effect;
  * `updateRequirementsFile` — writes the `requirements.txt` projection,
    not the package store;
  * `isPackageInstalled` — read-only probe. -/
inductive EnvOp where
  | installPackage (p : String)
  | installRequirements (ps : List String)
  | executeCode (deps : List String)
  | executeWithAutoDeps (execRes : Nat → Bool × String) (max_attempts : Nat)
  | executeScript
  | updateRequirementsFile
  | isPackageInstalled (p : String)

/-- Effect of one environment operation on the environment state. -/
def env_step (o : EnvOracle) (op : EnvOp) (env : EnvState) : EnvState :=
  match op with
  | .installPackage p => (install_package o env p).1
  | .installRequirements ps => (install_requirements o env ps).1
  | .executeCode deps =>
    if deps = [] then env else (install_requirements o env deps).1
  | .executeWithAutoDeps execRes max_attempts =>
    (autoDepLoop o execRes max_attempts 0 env).1
  | .executeScript => env
  | .updateRequirementsFile => env
  | .isPackageInstalled _ => env

/-! Concrete scenario data used by counterexamples and witnesses. -/

/-- Scenario task A: pending, no dependencies, code attached. -/
def taskA : Task :=
  { id := "A", plan_id := "p", description := "task a", code := some "ca",
    dependencies := [], status := TaskStatus.pending, result := none }

/-- Scenario task B: pending, depends on A, code attached. -/
def taskB : Task :=
  { id := "B", plan_id := "p", description := "task b", code := some "cb",
    dependencies := ["A"], status := TaskStatus.pending, result := none }

/-- Scenario task F: already failed with a recorded error. -/
def taskF : Task :=
  { id := "F", plan_id := "p", description := "task f", code := some "cf",
    dependencies := [], status := TaskStatus.failed, result := some "boom" }

/-- Empty environment state. -/
def env0 : EnvState := { installed_packages := [], disk_packages := none }

/-- A world where every execution fails with an unrecognised error and no
pattern manager is configured.  The failure payload "boom" carries no
missing-module signature, matching what the wired executor can actually
report: `PythonProjectExecuteTool._handle_execute_task` resolves
missing-module stderr internally (install and retry), so the error texts it
stores for a failed task are raw non-module stderr, its install-failure
message, or its max-attempts message — never raw `No module named` text. -/
def failWorld : World :=
  { graph_rag := false
    recommended_fix := fun _ _ _ => none
    llm_fixed_code := fun _ _ => "fixed"
    exec_outcome := fun _ => { success := false, payload := "boom" }
    codegen := fun _ => none
    envo := { import_probe := fun _ => false, install_method := fun _ _ => false } }

/-- Evolution relation between environment states along one operation:
either the state is untouched, or the package set only grew and the grown
set was persisted to disk by the `_save_installed_packages` call that
immediately follows the growth. -/
def EnvEvolves (a b : EnvState) : Prop :=
  b = a ∨
    (a.installed_packages ⊆ b.installed_packages ∧
      b.disk_packages = some b.installed_packages)

/-- A world like `failWorld` but with a pattern manager whose recommended
fix has confidence 0.6, below the 0.75 threshold. -/
def lowConfWorld : World :=
  { graph_rag := true
    recommended_fix := fun _ _ _ =>
      some { fixed_code := "learnedfix", confidence := 3 / 5 }
    llm_fixed_code := fun _ _ => "genfix"
    exec_outcome := fun _ => { success := false, payload := "boom" }
    codegen := fun _ => none
    envo := { import_probe := fun _ => false, install_method := fun _ _ => false } }

/-! ## Helper lemmas -/

/-- With unique ids (the SQLite primary key), `find?` by id returns exactly
the member with that id. -/
lemma find?_id_of_mem (tasks : List Task) (h : (tasks.map Task.id).Nodup)
    (u : Task) (hu : u ∈ tasks) :
    tasks.find? (fun t => t.id = u.id) = some u := by
  induction tasks with
  | nil => cases hu
  | cons a l ih =>
    rcases List.mem_cons.mp hu with rfl | hmem
    · simp [List.find?]
    · have hid : a.id ≠ u.id := by
        intro he
        have : u.id ∈ l.map Task.id := List.mem_map_of_mem Task.id hmem
        rw [← he] at this
        exact (List.nodup_cons.mp h).1 this
      have := ih (List.nodup_cons.mp h).2 hmem
      simp [List.find?, hid, this]

lemma mem_of_find?_id (tasks : List Task) (x : String) (u : Task)
    (h : tasks.find? (fun t => t.id = x) = some u) :
    u ∈ tasks ∧ u.id = x := by
  refine ⟨List.mem_of_find?_eq_some h, ?_⟩
  have := List.find?_some h
  simpa using this

lemma id_inj_of_nodup (tasks : List Task) (h : (tasks.map Task.id).Nodup)
    (u v : Task) (hu : u ∈ tasks) (hv : v ∈ tasks) (he : u.id = v.id) :
    u = v := by
  have h1 := find?_id_of_mem tasks h u hu
  have h2 := find?_id_of_mem tasks h v hv
  rw [he, h2] at h1
  exact (Option.some_inj.mp h1).symm

/-- The dependency check agrees with the declarative condition. -/
lemma dependencies_met_iff (db : TaskDatabase) (t : Task)
    (huniq : (db.tasks.map Task.id).Nodup) :
    dependencies_met db t = true ↔
      ∀ d ∈ t.dependencies, ∃ u ∈ db.tasks,
        u.id = d ∧ u.status = TaskStatus.completed := by
  unfold dependencies_met
  rw [List.all_eq_true]
  constructor
  · intro h d hd
    have hb := h d hd
    cases hfind : get_task db d with
    | none => rw [hfind] at hb; cases hb
    | some u =>
      rw [hfind] at hb
      obtain ⟨hmem, hid⟩ := mem_of_find?_id db.tasks d u hfind
      exact ⟨u, hmem, hid, by simpa using hb⟩
  · intro h d hd
    obtain ⟨u, hmem, hid, hst⟩ := h d hd
    have : get_task db d = some u := by
      unfold get_task
      rw [← hid]
      exact find?_id_of_mem db.tasks huniq u hmem
    rw [this]
    simpa using hst

/-- Claim C1: for every task T in the store, `get_runnable_tasks` returns T
iff T is pending and every id in T's dependency list refers to an existing
task whose status is completed; consequently a pending task with a
nonexistent dependency id is never returned, and in a set of pending tasks
each of which depends on another member of the set (a dependency cycle), no
member is ever returned. -/
theorem spec_C1 (db : TaskDatabase) (t : Task)
    (huniq : (db.tasks.map Task.id).Nodup) :
    (t ∈ get_runnable_tasks db ↔
      t ∈ db.tasks ∧ t.status = TaskStatus.pending ∧
        ∀ d ∈ t.dependencies, ∃ u ∈ db.tasks,
          u.id = d ∧ u.status = TaskStatus.completed) ∧
    (∀ C : List Task,
      (∀ u ∈ C, u ∈ db.tasks ∧ u.status = TaskStatus.pending ∧
        ∃ d ∈ u.dependencies, ∃ v ∈ C, v.id = d) →
      ∀ u ∈ C, u ∉ get_runnable_tasks db) := by
  have hmain : ∀ x : Task, x ∈ get_runnable_tasks db ↔
      x ∈ db.tasks ∧ x.status = TaskStatus.pending ∧
        ∀ d ∈ x.dependencies, ∃ u ∈ db.tasks,
          u.id = d ∧ u.status = TaskStatus.completed := by
    intro x
    unfold get_runnable_tasks get_pending_tasks
    rw [List.mem_filter, List.mem_filter, dependencies_met_iff db x huniq]
    constructor
    · rintro ⟨⟨hmem, hpend⟩, hdeps⟩
      exact ⟨hmem, by simpa using hpend, hdeps⟩
    · rintro ⟨hmem, hpend, hdeps⟩
      exact ⟨⟨hmem, by simpa using hpend⟩, hdeps⟩
  refine ⟨hmain t, ?_⟩
  intro C hC u hu hrun
  obtain ⟨humem, hupend, d, hd, v, hvC, hvid⟩ := hC u hu
  obtain ⟨_, _, hdeps⟩ := (hmain u).mp hrun
  obtain ⟨w, hwmem, hwid, hwst⟩ := hdeps d hd
  obtain ⟨hvmem, hvpend, _⟩ := hC v hvC
  have : w = v := id_inj_of_nodup db.tasks huniq w v hwmem hvmem
    (by rw [hwid, hvid])
  rw [this, hvpend] at hwst
  cases hwst

/-- Witness for C1: a two-task store where the dependency of the pending
task is completed, so the task is runnable. -/
theorem spec_C1_witness :
    let done : Task :=
      { id := "t0", plan_id := "p", description := "done task", code := none,
        dependencies := [], status := TaskStatus.completed, result := none }
    let ready : Task :=
      { id := "t1", plan_id := "p", description := "ready task", code := none,
        dependencies := ["t0"], status := TaskStatus.pending, result := none }
    let db : TaskDatabase := { tasks := [done, ready], errorHistory := [] }
    ready ∈ get_runnable_tasks db := by
  intro done ready db
  exact ((spec_C1 db ready (by decide)).1).mpr (by decide)

/-- Counterexample to C2: inserting a task whose dependency list names an id
that exists nowhere in the store raises no error and does create the task,
together with its dependency edge — `add_task` never validates dependency
ids (task_database.py lines 166-202 contain no lookup of the dependency ids,
and SQLite foreign keys are not enabled). -/
theorem spec_C2_counterexample :
    get_task { tasks := [], errorHistory := [] } "missing-dep" = none ∧
    (add_task { tasks := [], errorHistory := [] }
        "demo task" "plan1" ["missing-dep"] none "t1").1.tasks =
      [{ id := "t1", plan_id := "plan1", description := "demo task",
         code := none, dependencies := ["missing-dep"],
         status := TaskStatus.pending, result := none }] := by
  constructor
  · rfl
  · rfl

/-- Claim C2, amended: `add_task` performs no validation of the dependency
list at all — for every store and every dependency list (including ids that
do not exist or belong to tasks of a different plan) it succeeds, appending
the new pending task with exactly the given dependency edges and touching
nothing else. -/
theorem spec_C2_amended (db : TaskDatabase) (description plan_id : String)
    (dependencies : List String) (code : Option String) (task_id : String) :
    (add_task db description plan_id dependencies code task_id).1.tasks =
      db.tasks ++
        [{ id := task_id, plan_id := plan_id, description := description,
           code := code, dependencies := dependencies,
           status := TaskStatus.pending, result := none }] ∧
    (add_task db description plan_id dependencies code task_id).1.errorHistory =
      db.errorHistory ∧
    (add_task db description plan_id dependencies code task_id).2 = task_id := by
  exact ⟨rfl, rfl, rfl⟩

lemma scanNoModule_nil (fuel : Nat) : scanNoModule fuel [] = [] := by
  cases fuel <;> rfl

lemma noModuleLit_length : noModuleLit.length = 17 := by decide

/-- One unfolding of the scanner at a position where the literal matches. -/
lemma scan_succ (f : Nat) (cs : List Char)
    (hpre : noModuleLit.isPrefixOf cs = true) :
    scanNoModule (f + 1) cs =
      (match (cs.drop noModuleLit.length).drop
          ((cs.drop noModuleLit.length).takeWhile (fun ch => ch ≠ qc)).length with
       | _ :: rest2 =>
         if (cs.drop noModuleLit.length).takeWhile (fun ch => ch ≠ qc) = []
         then scanNoModule f cs.tail
         else ((cs.drop noModuleLit.length).takeWhile (fun ch => ch ≠ qc)) ::
           scanNoModule f rest2
       | [] => scanNoModule f cs.tail) := by
  cases cs with
  | nil =>
    rw [List.isPrefixOf_length_pos_nil (by rw [noModuleLit_length]; omega)] at hpre
    cases hpre
  | cons c cs' =>
    simp only [scanNoModule, hpre, if_true, List.tail_cons]

/-- The scanner is independent of the fuel as long as the fuel covers the
input length (the fuel strictly exceeds the consumed characters at every
recursive call). -/
lemma scanNoModule_congr : ∀ (f1 f2 : Nat) (cs : List Char),
    cs.length ≤ f1 → cs.length ≤ f2 →
    scanNoModule f1 cs = scanNoModule f2 cs := by
  intro f1
  induction f1 with
  | zero =>
    intro f2 cs h1 _
    have : cs = [] := List.length_eq_zero.mp (Nat.le_zero.mp h1)
    subst this
    rw [scanNoModule_nil, scanNoModule_nil]
  | succ k ih =>
    intro f2 cs h1 h2
    cases cs with
    | nil => rw [scanNoModule_nil, scanNoModule_nil]
    | cons c cs' =>
      cases f2 with
      | zero => simp at h2
      | succ k2 =>
        have hk : cs'.length ≤ k := by simpa using h1
        have hk2 : cs'.length ≤ k2 := by simpa using h2
        by_cases hp : noModuleLit.isPrefixOf (c :: cs') = true
        · have hrest : ((c :: cs').drop noModuleLit.length).length ≤ cs'.length := by
            rw [List.length_drop, noModuleLit_length, List.length_cons]
            omega
          simp only [scanNoModule, hp, if_true]
          cases hdrop : ((c :: cs').drop noModuleLit.length).drop
              (((c :: cs').drop noModuleLit.length).takeWhile
                (fun ch => ch ≠ qc)).length with
          | nil => exact ih k2 cs' hk hk2
          | cons q rest2 =>
            have hlen2 : ((c :: cs').drop noModuleLit.length).length -
                (((c :: cs').drop noModuleLit.length).takeWhile
                  (fun ch => ch ≠ qc)).length = rest2.length + 1 := by
              have := congrArg List.length hdrop
              rw [List.length_drop] at this
              simpa using this
            by_cases hcap : ((c :: cs').drop noModuleLit.length).takeWhile
                (fun ch => ch ≠ qc) = []
            · simp only [hcap, if_true]
              exact ih k2 cs' hk hk2
            · simp only [hcap, if_false]
              rw [ih k2 rest2 (by omega) (by omega)]
        · simp only [scanNoModule, hp, if_false]
          exact ih k2 cs' hk hk2

/-- A regex match cannot start strictly inside text that precedes an
occurrence: if the literal is a prefix of `sep' ++ cs` where `cs` is empty
or itself starts with the literal, the literal lies inside `sep'` alone.
The crux is that the capital N opening the literal occurs nowhere else in
it, so a match cannot straddle the boundary. -/
lemma lit_prefix_of_append (sep' cs : List Char) (hne : sep' ≠ [])
    (hcs : cs = [] ∨ ∃ r, cs = noModuleLit ++ r)
    (hpre : noModuleLit <+: sep' ++ cs) :
    noModuleLit <+: sep' := by
  by_cases hlen : noModuleLit.length ≤ sep'.length
  · rw [List.prefix_iff_eq_take] at hpre ⊢
    rw [List.take_append_of_le_length hlen] at hpre
    exact hpre
  · exfalso
    push_neg at hlen
    rw [noModuleLit_length] at hlen
    have hk1 : 1 ≤ sep'.length := by
      cases sep' with
      | nil => exact absurd rfl hne
      | cons a l => simp
    obtain ⟨t, ht⟩ := hpre
    have hdrop := congrArg (List.drop sep'.length) ht
    rw [List.drop_append_of_le_length (by rw [noModuleLit_length]; omega)] at hdrop
    rw [List.drop_left] at hdrop
    have hd_ne : noModuleLit.drop sep'.length ≠ [] := by
      intro hx
      have := congrArg List.length hx
      rw [List.length_drop, noModuleLit_length] at this
      simp at this
      omega
    obtain ⟨a, l', hal⟩ : ∃ a l', noModuleLit.drop sep'.length = a :: l' := by
      cases hx : noModuleLit.drop sep'.length with
      | nil => exact absurd hx hd_ne
      | cons a l' => exact ⟨a, l', rfl⟩
    rcases hcs with rfl | ⟨r, rfl⟩
    · rw [hal] at hdrop
      simp at hdrop
    · have hlitcons : noModuleLit = 'N' :: ("o module named ".data ++ [qc]) := by
        decide
      rw [hal, hlitcons, List.cons_append, List.cons_append] at hdrop
      have ha : a = 'N' := (List.cons.injEq .. ▸ hdrop).1
      have hget : noModuleLit[sep'.length]? = some 'N' := by
        rw [← List.head?_drop, hal, ha]
        rfl
      have hfact : ∀ j : Fin 17, 1 ≤ j.val →
          ¬ noModuleLit[j.val]? = some 'N' := by decide
      exact hfact ⟨sep'.length, hlen⟩ hk1 hget

/-- The scanner walks through arbitrary text that contains no complete
literal (and thus no match — any text re.findall would also skip) without
emitting anything, then continues on the rest. -/
lemma scan_sep : ∀ (sep cs : List Char) (fuel : Nat),
    ¬ noModuleLit <:+: sep →
    (cs = [] ∨ ∃ r, cs = noModuleLit ++ r) →
    (sep ++ cs).length ≤ fuel →
    scanNoModule fuel (sep ++ cs) = scanNoModule cs.length cs := by
  intro sep
  induction sep with
  | nil =>
    intro cs fuel _ _ hf
    simp only [List.nil_append] at hf ⊢
    exact scanNoModule_congr fuel cs.length cs hf (Nat.le_refl _)
  | cons c sep' ih =>
    intro cs fuel hsep hcs hf
    cases fuel with
    | zero => simp at hf
    | succ f =>
      have hp : ¬ noModuleLit.isPrefixOf (c :: (sep' ++ cs)) = true := by
        intro hx
        have hpre := List.isPrefixOf_iff_prefix.mp hx
        rw [← List.cons_append] at hpre
        have := lit_prefix_of_append (c :: sep') cs (by simp) hcs hpre
        exact hsep this.isInfix
      show scanNoModule (f + 1) (c :: (sep' ++ cs)) = _
      simp only [scanNoModule]
      rw [if_neg hp]
      refine ih cs f (fun hx => hsep (List.infix_cons hx)) hcs ?_
      simp only [List.cons_append, List.length_cons] at hf
      omega

/-- At an occurrence, the scanner emits the quoted name and resumes
directly after the closing quote. -/
lemma scan_occ (m rest : List Char) (fuel : Nat) (hm : m ≠ []) (hq : qc ∉ m)
    (hf : (noModuleLit ++ m ++ qc :: rest).length ≤ fuel + 1) :
    scanNoModule (fuel + 1) (noModuleLit ++ m ++ qc :: rest) =
      m :: scanNoModule rest.length rest := by
  have hass : noModuleLit ++ m ++ qc :: rest =
      noModuleLit ++ (m ++ qc :: rest) := by simp
  have hpre : noModuleLit.isPrefixOf (noModuleLit ++ m ++ qc :: rest) = true := by
    rw [hass]
    exact List.isPrefixOf_iff_prefix.mpr (List.prefix_append _ _)
  rw [scan_succ fuel _ hpre]
  have hdrop : (noModuleLit ++ m ++ qc :: rest).drop noModuleLit.length =
      m ++ qc :: rest := by
    rw [hass]
    exact List.drop_left _ _
  have htake : (m ++ qc :: rest).takeWhile (fun ch => ch ≠ qc) = m := by
    rw [List.takeWhile_append_of_pos ?_]
    · simp [List.takeWhile]
    · intro a ha
      simp only [ne_eq, decide_eq_true_eq]
      intro he
      exact hq (he ▸ ha)
  rw [hdrop, htake]
  have hdrop2 : (m ++ qc :: rest).drop m.length = qc :: rest :=
    List.drop_left _ _
  rw [hdrop2]
  simp only [hm, if_false]
  congr 1
  refine scanNoModule_congr fuel rest.length rest ?_ (Nat.le_refl _)
  simp only [List.length_append, List.length_cons, noModuleLit_length] at hf
  omega

lemma occSep_shape (ps : List (List Char × List Char)) :
    occSep ps = [] ∨ ∃ r, occSep ps = noModuleLit ++ r := by
  cases ps with
  | nil => exact Or.inl rfl
  | cons p ps' =>
    obtain ⟨m, sep⟩ := p
    refine Or.inr ⟨m ++ qc :: (sep ++ occSep ps'), ?_⟩
    show noModuleLit ++ m ++ qc :: (sep ++ occSep ps') = _
    simp

/-- The scanner finds exactly the listed occurrences, in order, through the
arbitrary interleaved text. -/
lemma scan_occSep : ∀ (parts : List (List Char × List Char)) (fuel : Nat),
    (∀ p ∈ parts, p.1 ≠ [] ∧ qc ∉ p.1 ∧ ¬ noModuleLit <:+: p.2) →
    (occSep parts).length ≤ fuel →
    scanNoModule fuel (occSep parts) = parts.map (fun p => p.1) := by
  intro parts
  induction parts with
  | nil =>
    intro fuel _ _
    rw [show occSep [] = [] from rfl, scanNoModule_nil]
    rfl
  | cons p ps ih =>
    obtain ⟨m, sep⟩ := p
    intro fuel hps hf
    obtain ⟨hm, hq, hsep⟩ := hps (m, sep) (List.mem_cons_self _ _)
    have hocc : occSep ((m, sep) :: ps) =
        noModuleLit ++ m ++ qc :: (sep ++ occSep ps) := rfl
    rw [hocc] at hf ⊢
    cases fuel with
    | zero =>
      exfalso
      simp only [List.length_append, List.length_cons, noModuleLit_length] at hf
      omega
    | succ f =>
      rw [scan_occ m (sep ++ occSep ps) f hm hq hf]
      congr 1
      rw [scan_sep sep (occSep ps) _ hsep (occSep_shape ps) (Nat.le_refl _)]
      exact ih (occSep ps).length
        (fun x hx => hps x (List.mem_cons_of_mem _ hx)) (Nat.le_refl _)

/-- Claim C7: `extract_missing_packages` matches every occurrence of
`No module named '<name>'` in the error text — here an arbitrary text: any
leading text, any text between and after the occurrences (constrained only
to not itself contain the full match literal, in which case re.findall
would see a further occurrence), with arbitrarily many occurrences —
truncates each matched name to its root package, rewrites the root bs4 to
beautifulsoup4, and excludes names in the static stdlib table; in
particular an error text containing `No module named ` + quoted bs4 amid
traceback text yields exactly `[beautifulsoup4]`. -/
theorem spec_C7 (sep0 : List Char) (parts : List (List Char × List Char))
    (hsep0 : ¬ noModuleLit <:+: sep0)
    (hparts : ∀ p ∈ parts, p.1 ≠ [] ∧ qc ∉ p.1 ∧ ¬ noModuleLit <:+: p.2) :
    extract_missing_packages (String.mk (sep0 ++ occSep parts)) =
      ((parts.map (fun p => aliasPackage (rootPackage (String.mk p.1)))).filter
        (fun q => !(is_stdlib_module q))) ∧
    extract_missing_packages
      (String.mk ("ModuleNotFoundError: ".data ++ noModuleLit ++ "bs4".data ++
        qc :: " (line 1)".data)) = ["beautifulsoup4"] := by
  constructor
  · unfold extract_missing_packages
    rw [show (String.mk (sep0 ++ occSep parts)).data = sep0 ++ occSep parts from rfl]
    rw [scan_sep sep0 (occSep parts) _ hsep0 (occSep_shape parts)
      (by rw [List.length_append])]
    rw [scan_occSep parts (occSep parts).length hparts (Nat.le_refl _)]
    rw [List.map_map]
    rfl
  · decide

/-- Witness for C7: three occurrences embedded in arbitrary junk — a
traceback prefix, separators including a partial literal
(`; ModuleNotFound`) and a trailing text — exercising submodule truncation
(numpy.linalg → numpy), stdlib exclusion (os.path → os, dropped) and the
bs4 alias. -/
theorem spec_C7_witness :
    (¬ noModuleLit <:+: "Traceback: ".data) ∧
    (∀ p ∈ [("numpy.linalg".data, ", then ".data),
            ("os.path".data, "; ModuleNotFound".data),
            ("bs4".data, " end".data)],
      p.1 ≠ [] ∧ qc ∉ p.1 ∧ ¬ noModuleLit <:+: p.2) ∧
    (extract_missing_packages (String.mk ("Traceback: ".data ++
        occSep [("numpy.linalg".data, ", then ".data),
                ("os.path".data, "; ModuleNotFound".data),
                ("bs4".data, " end".data)])) =
      (([("numpy.linalg".data, ", then ".data),
         ("os.path".data, "; ModuleNotFound".data),
         ("bs4".data, " end".data)].map
          (fun p => aliasPackage (rootPackage (String.mk p.1)))).filter
        (fun q => !(is_stdlib_module q))) ∧
    extract_missing_packages
      (String.mk ("ModuleNotFoundError: ".data ++ noModuleLit ++ "bs4".data ++
        qc :: " (line 1)".data)) = ["beautifulsoup4"]) :=
  ⟨by decide, by decide,
    spec_C7 "Traceback: ".data
      [("numpy.linalg".data, ", then ".data),
       ("os.path".data, "; ModuleNotFound".data),
       ("bs4".data, " end".data)]
      (by decide) (by decide)⟩

lemma envEvolves_refl (a : EnvState) : EnvEvolves a a := Or.inl rfl

lemma envEvolves_trans {a b c : EnvState} (h1 : EnvEvolves a b)
    (h2 : EnvEvolves b c) : EnvEvolves a c := by
  rcases h2 with rfl | ⟨hsub2, hdisk2⟩
  · exact h1
  · rcases h1 with rfl | ⟨hsub1, _⟩
    · exact Or.inr ⟨hsub2, hdisk2⟩
    · exact Or.inr ⟨List.Subset.trans hsub1 hsub2, hdisk2⟩

lemma install_package_evolves (o : EnvOracle) (env : EnvState) (p : String) :
    EnvEvolves env (install_package o env p).1 := by
  unfold install_package
  by_cases hins : is_package_installed o env p
  · rw [if_pos hins]
    exact envEvolves_refl env
  · rw [if_neg hins]
    cases firstInstallMethod o p with
    | none => exact envEvolves_refl env
    | some i =>
      exact Or.inr ⟨List.subset_append_left _ _, rfl⟩

lemma install_requirements_foldl_evolves (o : EnvOracle) (ps : List String) :
    ∀ acc : EnvState × Bool,
      EnvEvolves acc.1
        (ps.foldl (fun (a : EnvState × Bool) p =>
          let r := install_package o a.1 p
          (r.1, a.2 && r.2)) acc).1 := by
  induction ps with
  | nil => intro acc; exact envEvolves_refl acc.1
  | cons p ps ih =>
    intro acc
    exact envEvolves_trans (install_package_evolves o acc.1 p) (ih _)

lemma install_requirements_evolves (o : EnvOracle) (env : EnvState)
    (ps : List String) : EnvEvolves env (install_requirements o env ps).1 :=
  install_requirements_foldl_evolves o ps (env, true)

lemma autoDepLoop_evolves (o : EnvOracle) (execRes : Nat → Bool × String) :
    ∀ (remaining attempt : Nat) (env : EnvState),
      EnvEvolves env (autoDepLoop o execRes remaining attempt env).1 := by
  intro remaining
  induction remaining with
  | zero => intro attempt env; exact envEvolves_refl env
  | succ k ih =>
    intro attempt env
    show EnvEvolves env (autoDepLoop o execRes (k + 1) attempt env).1
    rw [autoDepLoop]
    by_cases hr : (execRes attempt).1
    · rw [if_pos hr]; exact envEvolves_refl env
    · rw [if_neg hr]
      by_cases hmiss : extract_missing_packages (execRes attempt).2 = []
      · rw [if_pos hmiss]; exact envEvolves_refl env
      · rw [if_neg hmiss]
        by_cases hstop :
            (!(install_requirements o env
                (extract_missing_packages (execRes attempt).2)).2 && k = 0 : Bool)
        · rw [if_pos hstop]
          exact install_requirements_evolves o env _
        · rw [if_neg hstop]
          exact envEvolves_trans (install_requirements_evolves o env _) (ih _ _)

lemma env_step_evolves (o : EnvOracle) (op : EnvOp) (env : EnvState) :
    EnvEvolves env (env_step o op env) := by
  cases op with
  | installPackage p => exact install_package_evolves o env p
  | installRequirements ps => exact install_requirements_evolves o env ps
  | executeCode deps =>
    show EnvEvolves env
      (if deps = [] then env else (install_requirements o env deps).1)
    by_cases hd : deps = []
    · rw [if_pos hd]; exact envEvolves_refl env
    · rw [if_neg hd]; exact install_requirements_evolves o env deps
  | executeWithAutoDeps execRes max_attempts =>
    exact autoDepLoop_evolves o execRes max_attempts 0 env
  | executeScript => exact envEvolves_refl env
  | updateRequirementsFile => exact envEvolves_refl env
  | isPackageInstalled p => exact envEvolves_refl env

/-- Claim C9: across every operation of the environment, the
`installed_packages` set only grows (a package once added is never removed),
and whenever an operation did change the set, the changed set is on disk
when the operation returns — growth happens only inside
`install_package` (also when reached through `install_requirements` or the
execute operations), which persists the set immediately after every
successful install. -/
theorem spec_C9 (o : EnvOracle) (op : EnvOp) (env : EnvState) :
    env.installed_packages ⊆ (env_step o op env).installed_packages ∧
    ((env_step o op env).installed_packages ≠ env.installed_packages →
      (env_step o op env).disk_packages =
        some ((env_step o op env).installed_packages)) := by
  rcases env_step_evolves o op env with heq | ⟨hsub, hdisk⟩
  · rw [heq]
    exact ⟨List.Subset.refl _, fun hne => absurd rfl hne⟩
  · exact ⟨hsub, fun _ => hdisk⟩

/-- Witness for C9 at a concrete operation: installing one package into the
empty environment with a succeeding install method. -/
theorem spec_C9_witness :
    env0.installed_packages ⊆
      (env_step { import_probe := fun _ => false, install_method := fun _ _ => true }
        (EnvOp.installPackage "requests") env0).installed_packages ∧
    ((env_step { import_probe := fun _ => false, install_method := fun _ _ => true }
        (EnvOp.installPackage "requests") env0).installed_packages ≠
          env0.installed_packages →
      (env_step { import_probe := fun _ => false, install_method := fun _ _ => true }
        (EnvOp.installPackage "requests") env0).disk_packages =
        some ((env_step { import_probe := fun _ => false, install_method := fun _ _ => true }
          (EnvOp.installPackage "requests") env0).installed_packages)) :=
  spec_C9 { import_probe := fun _ => false, install_method := fun _ _ => true }
    (EnvOp.installPackage "requests") env0

/-- Claim C10: when the task exists and its status is anything other than
failed, `repair_failed_task` returns true immediately with a completely
unchanged state — the store, the environment, the execution counter and the
event trace are all exactly as before, so no execution, no port call and no
mutation happened. -/
theorem spec_C10 (w : World) (s : OrchState) (task_id : String) (t : Task)
    (hget : get_task s.db task_id = some t)
    (hst : t.status ≠ TaskStatus.failed) :
    repair_failed_task w s task_id = some (s, true) := by
  unfold repair_failed_task
  rw [hget]
  simp only [if_pos hst]

/-- Witness for C10: repairing a pending task is a successful no-op. -/
theorem spec_C10_witness :
    repair_failed_task failWorld
      { db := { tasks := [taskA], errorHistory := [] }, env := env0,
        execCount := 0, trace := [] } "A" =
      some ({ db := { tasks := [taskA], errorHistory := [] }, env := env0,
              execCount := 0, trace := [] }, true) :=
  spec_C10 failWorld
    { db := { tasks := [taskA], errorHistory := [] }, env := env0,
      execCount := 0, trace := [] } "A" taskA (by decide) (by decide)

lemma get_task_map (db : TaskDatabase) (h : List ErrorHistoryEntry)
    (f : Task → Task) (hf : ∀ t, (f t).id = t.id) (x : String) :
    get_task { tasks := db.tasks.map f, errorHistory := h } x =
      (get_task db x).map f := by
  unfold get_task
  show (db.tasks.map f).find? (fun t => t.id = x) = _
  rw [List.find?_map]
  have hp : ((fun t : Task => decide (t.id = x)) ∘ f) =
      (fun t : Task => decide (t.id = x)) := by
    funext t
    simp [Function.comp, hf t]
  rw [hp]

lemma get_task_update_task (db : TaskDatabase) (tid : String)
    (st : Option TaskStatus) (res : Option String) (x : String) :
    get_task (update_task db tid st res) x =
      (get_task db x).map (fun t =>
        if t.id = tid then
          { t with
            status := st.getD t.status,
            result := match res with
              | some r => some r
              | none => t.result }
        else t) := by
  refine get_task_map db db.errorHistory _ ?_ x
  intro t
  by_cases h : t.id = tid <;> simp [h]

lemma get_task_update_code (db : TaskDatabase) (tid code : String) (x : String) :
    get_task (update_task_code db tid code) x =
      (get_task db x).map (fun t =>
        if t.id = tid then { t with code := some code } else t) := by
  refine get_task_map db db.errorHistory _ ?_ x
  intro t
  by_cases h : t.id = tid <;> simp [h]

lemma get_task_id {db : TaskDatabase} {x : String} {u : Task}
    (h : get_task db x = some u) : u.id = x :=
  (mem_of_find?_id db.tasks x u h).2

lemma isSome_update_task (db : TaskDatabase) (tid : String)
    (st : Option TaskStatus) (res : Option String) (x : String) :
    (get_task (update_task db tid st res) x).isSome = (get_task db x).isSome := by
  rw [get_task_update_task]
  cases get_task db x <;> rfl

lemma isSome_update_code (db : TaskDatabase) (tid code : String) (x : String) :
    (get_task (update_task_code db tid code) x).isSome = (get_task db x).isSome := by
  rw [get_task_update_code]
  cases get_task db x <;> rfl

lemma status_after_update (db : TaskDatabase) (tid : String)
    (stat : TaskStatus) (res : Option String)
    (h : (get_task db tid).isSome = true) :
    (get_task (update_task db tid (some stat) res) tid).map Task.status =
      some stat := by
  obtain ⟨u, hu⟩ := Option.isSome_iff_exists.mp h
  rw [get_task_update_task, hu]
  simp [get_task_id hu]

lemma update_task_errorHistory (db : TaskDatabase) (tid : String)
    (st : Option TaskStatus) (res : Option String) :
    (update_task db tid st res).errorHistory = db.errorHistory := rfl

lemma update_code_errorHistory (db : TaskDatabase) (tid code : String) :
    (update_task_code db tid code).errorHistory = db.errorHistory := rfl

/-- Behaviour of one executor invocation: it appends at most one `exec`
event (exactly one, successful, when it reports success), never touches the
error history or the environment, and preserves which task ids exist; on
success the task ends completed in the store. -/
lemma executor_spec (w : World) (b : Branch) (s : OrchState) (tid : String) :
    ∃ d, (executor_execute_task w b s tid).1.trace = s.trace ++ d ∧
      (d = [] ∨
        d = [Event.exec b tid (executor_execute_task w b s tid).2.success]) ∧
      ((executor_execute_task w b s tid).2.success = true →
        d = [Event.exec b tid true] ∧
        (get_task (executor_execute_task w b s tid).1.db tid).map Task.status =
          some TaskStatus.completed) ∧
      (executor_execute_task w b s tid).1.db.errorHistory = s.db.errorHistory ∧
      (executor_execute_task w b s tid).1.env = s.env ∧
      (∀ x, (get_task (executor_execute_task w b s tid).1.db x).isSome =
        (get_task s.db x).isSome) := by
  cases hget : get_task s.db tid with
  | none =>
    have heq : executor_execute_task w b s tid =
        (s, { success := false, result := none,
              error := some ("Task with ID " ++ tid ++ " not found") }) := by
      simp [executor_execute_task, hget]
    rw [heq]
    refine ⟨[], by simp, Or.inl rfl, ?_, rfl, rfl, fun x => rfl⟩
    intro h
    simp at h
  | some t =>
    cases hcode : t.code with
    | none =>
      have heq : executor_execute_task w b s tid =
          (s, { success := false, result := none,
                error := some ("Task " ++ tid ++ " has no code to execute") }) := by
        simp [executor_execute_task, hget, hcode]
      rw [heq]
      refine ⟨[], by simp, Or.inl rfl, ?_, rfl, rfl, fun x => rfl⟩
      intro h
      simp at h
    | some c =>
      cases hout : (w.exec_outcome s.execCount).success with
      | true =>
        have heq : executor_execute_task w b s tid =
            ({ db := update_task
                  (update_task s.db tid (some TaskStatus.running) none) tid
                  (some TaskStatus.completed)
                  (some (w.exec_outcome s.execCount).payload),
               env := s.env, execCount := s.execCount + 1,
               trace := s.trace ++ [Event.exec b tid true] },
             { success := true,
               result := some (w.exec_outcome s.execCount).payload,
               error := none }) := by
          simp [executor_execute_task, hget, hcode, hout]
        rw [heq]
        refine ⟨[Event.exec b tid true], rfl, Or.inr rfl, ?_, rfl, rfl, ?_⟩
        · intro _
          refine ⟨rfl, ?_⟩
          refine status_after_update _ tid TaskStatus.completed _ ?_
          rw [isSome_update_task, hget]
          rfl
        · intro x
          rw [isSome_update_task, isSome_update_task]
      | false =>
        have heq : executor_execute_task w b s tid =
            ({ db := update_task
                  (update_task s.db tid (some TaskStatus.running) none) tid
                  (some TaskStatus.failed)
                  (some (w.exec_outcome s.execCount).payload),
               env := s.env, execCount := s.execCount + 1,
               trace := s.trace ++ [Event.exec b tid false] },
             { success := false, result := none,
               error := some (w.exec_outcome s.execCount).payload }) := by
          simp [executor_execute_task, hget, hcode, hout]
        rw [heq]
        refine ⟨[Event.exec b tid false], rfl, Or.inr rfl, ?_, rfl, rfl, ?_⟩
        · intro h
          simp at h
        · intro x
          rw [isSome_update_task, isSome_update_task]

lemma countExec_append (a b : List Event) :
    countExec (a ++ b) = countExec a + countExec b := by
  unfold countExec
  rw [List.filter_append, List.length_append]

lemma countExec_eq_zero (a : List Event) (h : ∀ e ∈ a, e.isExec = false) :
    countExec a = 0 := by
  unfold countExec
  rw [List.filter_eq_nil_iff.mpr (by intro e he; rw [h e he]; simp)]
  rfl

lemma execCountTask_append (a b : List Event) (tid : String) :
    execCountTask (a ++ b) tid = execCountTask a tid + execCountTask b tid := by
  unfold execCountTask
  rw [List.filter_append, List.length_append]

lemma execCountB_append (a b : List Event) (br : Branch) :
    execCountB (a ++ b) br = execCountB a br + execCountB b br := by
  unfold execCountB
  rw [List.filter_append, List.length_append]

/-- Behaviour of the shared strategy tail `exec_and_complete`. -/
lemma exec_and_complete_spec (w : World) (b : Branch) (s : OrchState)
    (tid : String) (es : List Event) (hes : ∀ e ∈ es, e.isExec = false) :
    ∃ d, (exec_and_complete w b s tid es).1.trace = s.trace ++ d ∧
      (∀ e ∈ d, (∃ ok, e = Event.exec b tid ok) ∨ e ∈ es) ∧
      countExec d ≤ 1 ∧
      ((exec_and_complete w b s tid es).2.success = true ↔
        ∃ e ∈ d, e.isSuccExec = true) ∧
      ((exec_and_complete w b s tid es).2.success = true →
        (get_task (exec_and_complete w b s tid es).1.db tid).map Task.status =
          some TaskStatus.completed) ∧
      (exec_and_complete w b s tid es).1.db.errorHistory = s.db.errorHistory ∧
      (exec_and_complete w b s tid es).1.env = s.env ∧
      (∀ x, (get_task (exec_and_complete w b s tid es).1.db x).isSome =
        (get_task s.db x).isSome) := by
  obtain ⟨d0, htr, hor, hsc, heh, henv, hsome⟩ := executor_spec w b s tid
  cases hsucc : (executor_execute_task w b s tid).2.success with
  | true =>
    obtain ⟨hd0, hstatus⟩ := hsc hsucc
    have heq : exec_and_complete w b s tid es =
        (addTrace
          { (executor_execute_task w b s tid).1 with
            db := update_task (executor_execute_task w b s tid).1.db tid
              (some TaskStatus.completed)
              (executor_execute_task w b s tid).2.result }
          es, (executor_execute_task w b s tid).2) := by
      simp [exec_and_complete, hsucc]
    rw [heq]
    refine ⟨d0 ++ es, ?_, ?_, ?_, ?_, ?_, ?_, ?_, ?_⟩
    · show (executor_execute_task w b s tid).1.trace ++ es = s.trace ++ (d0 ++ es)
      rw [htr, List.append_assoc]
    · intro e he
      rcases List.mem_append.mp he with h0 | h1
      · rw [hd0] at h0
        rcases List.mem_singleton.mp h0 with rfl
        exact Or.inl ⟨true, rfl⟩
      · exact Or.inr h1
    · rw [countExec_append, hd0, countExec_eq_zero es hes]
      simp [countExec, Event.isExec]
    · rw [hsucc]
      constructor
      · intro _
        refine ⟨Event.exec b tid true, ?_, rfl⟩
        rw [hd0] at *
        exact List.mem_append.mpr (Or.inl (List.mem_singleton.mpr rfl))
      · intro _; rfl
    · intro _
      show (get_task (update_task (executor_execute_task w b s tid).1.db tid
        (some TaskStatus.completed) (executor_execute_task w b s tid).2.result) tid).map
          Task.status = some TaskStatus.completed
      refine status_after_update _ tid TaskStatus.completed _ ?_
      cases hg : get_task (executor_execute_task w b s tid).1.db tid with
      | none => rw [hg] at hstatus; simp at hstatus
      | some u => rfl
    · show (update_task _ tid _ _).errorHistory = s.db.errorHistory
      rw [update_task_errorHistory]
      exact heh
    · exact henv
    · intro x
      show (get_task (update_task _ tid _ _) x).isSome = _
      rw [isSome_update_task]
      exact hsome x
  | false =>
    have heq : exec_and_complete w b s tid es = executor_execute_task w b s tid := by
      simp [exec_and_complete, hsucc]
    rw [heq]
    refine ⟨d0, htr, ?_, ?_, ?_, ?_, heh, henv, hsome⟩
    · intro e he
      rcases hor with rfl | hd0
      · cases he
      · rw [hd0] at he
        rcases List.mem_singleton.mp he with rfl
        exact Or.inl ⟨_, rfl⟩
    · rcases hor with rfl | hd0
      · simp [countExec]
      · rw [hd0]; simp [countExec, Event.isExec]
    · rw [hsucc]
      constructor
      · intro h; cases h
      · rintro ⟨e, he, hsu⟩
        rcases hor with rfl | hd0
        · cases he
        · rw [hd0] at he
          rcases List.mem_singleton.mp he with rfl
          rw [hsucc] at hsu
          simp [Event.isSuccExec] at hsu
    · intro h
      rw [hsucc] at h
      cases h

/-- Behaviour of the learned/dependency strategy wrapper. -/
lemma run_strategy_spec (w : World) (b : Branch) (s : OrchState)
    (tid : String) (es : List Event) (hes : ∀ e ∈ es, e.isExec = false) :
    ∃ d, (run_strategy w b s tid es).1.trace = s.trace ++ d ∧
      (∀ e ∈ d, (∃ ok, e = Event.exec b tid ok) ∨ e ∈ es) ∧
      countExec d ≤ 1 ∧
      ((run_strategy w b s tid es).2 = none ∨
        (run_strategy w b s tid es).2 = some true) ∧
      ((run_strategy w b s tid es).2 = some true ↔
        ∃ e ∈ d, e.isSuccExec = true) ∧
      ((run_strategy w b s tid es).2 = some true →
        (get_task (run_strategy w b s tid es).1.db tid).map Task.status =
          some TaskStatus.completed) ∧
      ((run_strategy w b s tid es).2 = none → ∀ e ∈ d, e.isSuccExec = false) ∧
      (run_strategy w b s tid es).1.db.errorHistory = s.db.errorHistory ∧
      (run_strategy w b s tid es).1.env = s.env ∧
      (∀ x, (get_task (run_strategy w b s tid es).1.db x).isSome =
        (get_task s.db x).isSome) := by
  obtain ⟨d, htr, hmem, hcnt, hiff, hst, heh, henv, hsome⟩ :=
    exec_and_complete_spec w b s tid es hes
  cases hsucc : (exec_and_complete w b s tid es).2.success with
  | true =>
    have heq : run_strategy w b s tid es =
        ((exec_and_complete w b s tid es).1, some true) := by
      simp [run_strategy, hsucc]
    rw [heq]
    refine ⟨d, htr, hmem, hcnt, Or.inr rfl, ?_, ?_, ?_, heh, henv, hsome⟩
    · exact ⟨fun _ => hiff.mp hsucc, fun _ => rfl⟩
    · intro _; exact hst hsucc
    · intro h; cases h
  | false =>
    have heq : run_strategy w b s tid es =
        ((exec_and_complete w b s tid es).1, none) := by
      simp [run_strategy, hsucc]
    rw [heq]
    refine ⟨d, htr, hmem, hcnt, Or.inl rfl, ?_, ?_, ?_, heh, henv, hsome⟩
    · constructor
      · intro h; cases h
      · intro hex
        have := hiff.mpr hex
        rw [hsucc] at this
        cases this
    · intro h; cases h
    · intro _ e he
      cases hb : e.isSuccExec with
      | false => rfl
      | true =>
        exfalso
        have := hiff.mpr ⟨e, he, hb⟩
        rw [hsucc] at this
        cases this

/-- Behaviour of the generative strategy tail. -/
lemma run_gen_tail_spec (w : World) (s : OrchState) (tid : String)
    (es : List Event) (hes : ∀ e ∈ es, e.isExec = false) :
    ∃ d, (run_gen_tail w s tid es).1.trace = s.trace ++ d ∧
      (∀ e ∈ d, (∃ ok, e = Event.exec Branch.gen tid ok) ∨ e ∈ es) ∧
      countExec d ≤ 1 ∧
      ((run_gen_tail w s tid es).2 = true ↔ ∃ e ∈ d, e.isSuccExec = true) ∧
      ((run_gen_tail w s tid es).2 = true →
        (get_task (run_gen_tail w s tid es).1.db tid).map Task.status =
          some TaskStatus.completed) ∧
      ((run_gen_tail w s tid es).2 = false →
        (∀ e ∈ d, e.isSuccExec = false) ∧
        ((get_task s.db tid).isSome = true →
          (get_task (run_gen_tail w s tid es).1.db tid).map Task.status =
            some TaskStatus.failed)) ∧
      (run_gen_tail w s tid es).1.db.errorHistory = s.db.errorHistory ∧
      (∀ x, (get_task (run_gen_tail w s tid es).1.db x).isSome =
        (get_task s.db x).isSome) := by
  obtain ⟨d, htr, hmem, hcnt, hiff, hst, heh, henv, hsome⟩ :=
    exec_and_complete_spec w Branch.gen s tid es hes
  cases hsucc : (exec_and_complete w Branch.gen s tid es).2.success with
  | true =>
    have heq : run_gen_tail w s tid es =
        ((exec_and_complete w Branch.gen s tid es).1, true) := by
      simp [run_gen_tail, hsucc]
    rw [heq]
    refine ⟨d, htr, hmem, hcnt, ⟨fun _ => hiff.mp hsucc, fun _ => rfl⟩,
      fun _ => hst hsucc, ?_, heh, hsome⟩
    intro h; cases h
  | false =>
    have heq : run_gen_tail w s tid es =
        ({ (exec_and_complete w Branch.gen s tid es).1 with
            db := update_task (exec_and_complete w Branch.gen s tid es).1.db tid
              (some TaskStatus.failed)
              (some ("Repair attempt failed: " ++
                (exec_and_complete w Branch.gen s tid es).2.error.getD "")) },
         false) := by
      simp [run_gen_tail, hsucc]
    rw [heq]
    refine ⟨d, htr, hmem, hcnt, ?_, ?_, ?_, ?_, ?_⟩
    · constructor
      · intro h; cases h
      · intro hex
        have := hiff.mpr hex
        rw [hsucc] at this
        cases this
    · intro h; cases h
    · intro _
      constructor
      · intro e he
        cases hb : e.isSuccExec with
        | false => rfl
        | true =>
          exfalso
          have := hiff.mpr ⟨e, he, hb⟩
          rw [hsucc] at this
          cases this
      · intro hs
        refine status_after_update _ tid TaskStatus.failed _ ?_
        rw [hsome tid]
        exact hs
    · show (update_task _ tid _ _).errorHistory = s.db.errorHistory
      rw [update_task_errorHistory]
      exact heh
    · intro x
      show (get_task (update_task _ tid _ _) x).isSome = _
      rw [isSome_update_task]
      exact hsome x

/-- Behaviour of the learned-fix strategy. -/
lemma learned_phase_spec (w : World) (s : OrchState) (t : Task) :
    ∃ l, (learned_phase w s t).1.trace = s.trace ++ l ∧
      (∀ e ∈ l, e.branch = Branch.learned) ∧
      countExec l ≤ 1 ∧
      ((learned_phase w s t).2 = none ∨ (learned_phase w s t).2 = some true) ∧
      ((learned_phase w s t).2 = some true ↔ ∃ e ∈ l, e.isSuccExec = true) ∧
      ((learned_phase w s t).2 = some true →
        (get_task (learned_phase w s t).1.db t.id).map Task.status =
          some TaskStatus.completed) ∧
      ((learned_phase w s t).2 = none → ∀ e ∈ l, e.isSuccExec = false) ∧
      (learned_phase w s t).1.db.errorHistory = s.db.errorHistory ∧
      (∀ x, (get_task (learned_phase w s t).1.db x).isSome =
        (get_task s.db x).isSome) ∧
      (∀ f, w.recommended_fix (t.result.getD "") t.code t.description = some f →
        w.graph_rag = true →
        ((f.confidence > (3 : ℚ) / 4 →
            Event.updateCode Branch.learned t.id f.fixed_code ∈ l) ∧
         (¬ f.confidence > (3 : ℚ) / 4 → l = [Event.queryFix t.id]))) := by
  cases hgr : w.graph_rag with
  | false =>
    have heq : learned_phase w s t = (s, none) := by
      simp [learned_phase, hgr]
    rw [heq]
    refine ⟨[], by simp, ?_, ?_, Or.inl rfl, ?_, ?_, ?_, rfl, fun x => rfl, ?_⟩
    · intro e he; cases he
    · simp [countExec]
    · constructor
      · intro h; cases h
      · rintro ⟨e, he, _⟩; cases he
    · intro h; cases h
    · intro _ e he; cases he
    · intro f _ hgr'
      simp at hgr'
  | true =>
    cases hfix : w.recommended_fix (t.result.getD "") t.code t.description with
    | none =>
      have heq : learned_phase w s t = (addTrace s [Event.queryFix t.id], none) := by
        simp [learned_phase, hgr, hfix]
      rw [heq]
      refine ⟨[Event.queryFix t.id], rfl, ?_, ?_, Or.inl rfl, ?_, ?_, ?_, rfl,
        fun x => rfl, ?_⟩
      · intro e he
        rcases List.mem_singleton.mp he with rfl
        rfl
      · simp [countExec, Event.isExec]
      · constructor
        · intro h; cases h
        · rintro ⟨e, he, hsu⟩
          rcases List.mem_singleton.mp he with rfl
          cases hsu
      · intro h; cases h
      · intro _ e he
        rcases List.mem_singleton.mp he with rfl
        rfl
      · intro f hfix' _
        simp at hfix'
    | some f0 =>
      by_cases hconf : f0.confidence > (3 : ℚ) / 4
      · have heq : learned_phase w s t =
            run_strategy w Branch.learned
              { db := update_task_code s.db t.id f0.fixed_code,
                env := s.env, execCount := s.execCount,
                trace := s.trace ++ [Event.queryFix t.id] ++
                  [Event.updateCode Branch.learned t.id f0.fixed_code] }
              t.id [Event.storePattern Branch.learned t.id] := by
          simp [learned_phase, hgr, hfix, hconf, addTrace]
        rw [heq]
        obtain ⟨d, htr, hmem, hcnt, hres, hiff, hst, hnone, heh, _, hsome⟩ :=
          run_strategy_spec w Branch.learned
            { db := update_task_code s.db t.id f0.fixed_code,
              env := s.env, execCount := s.execCount,
              trace := s.trace ++ [Event.queryFix t.id] ++
                [Event.updateCode Branch.learned t.id f0.fixed_code] }
            t.id [Event.storePattern Branch.learned t.id]
            (by intro e he; rcases List.mem_singleton.mp he with rfl; rfl)
        refine ⟨[Event.queryFix t.id,
            Event.updateCode Branch.learned t.id f0.fixed_code] ++ d,
          ?_, ?_, ?_, hres, ?_, hst, ?_, ?_, ?_, ?_⟩
        · rw [htr]
          simp
        · intro e he
          rcases List.mem_append.mp he with h2 | hd
          · rcases List.mem_cons.mp h2 with rfl | h3
            · rfl
            · rcases List.mem_singleton.mp h3 with rfl
              rfl
          · rcases hmem e hd with ⟨ok, rfl⟩ | hsp
            · rfl
            · rcases List.mem_singleton.mp hsp with rfl
              rfl
        · rw [countExec_append]
          have h2 : countExec [Event.queryFix t.id,
              Event.updateCode Branch.learned t.id f0.fixed_code] = 0 := by
            simp [countExec, Event.isExec]
          rw [h2]
          simpa using hcnt
        · rw [hiff]
          constructor
          · rintro ⟨e, he, hsu⟩
            exact ⟨e, List.mem_append.mpr (Or.inr he), hsu⟩
          · rintro ⟨e, he, hsu⟩
            rcases List.mem_append.mp he with h2 | hd
            · rcases List.mem_cons.mp h2 with rfl | h3
              · cases hsu
              · rcases List.mem_singleton.mp h3 with rfl
                cases hsu
            · exact ⟨e, hd, hsu⟩
        · intro hn e he
          rcases List.mem_append.mp he with h2 | hd
          · rcases List.mem_cons.mp h2 with rfl | h3
            · rfl
            · rcases List.mem_singleton.mp h3 with rfl
              rfl
          · exact hnone hn e hd
        · show _ = s.db.errorHistory
          rw [heh]
          exact update_code_errorHistory s.db t.id f0.fixed_code
        · intro x
          rw [hsome x]
          exact isSome_update_code s.db t.id f0.fixed_code x
        · intro f hfix' _
          rcases Option.some_inj.mp hfix' with rfl
          refine ⟨fun _ => ?_, fun hc => absurd hconf hc⟩
          exact List.mem_append.mpr (Or.inl (by simp))
      · have heq : learned_phase w s t =
            (addTrace s [Event.queryFix t.id], none) := by
          simp [learned_phase, hgr, hfix, hconf, addTrace]
        rw [heq]
        refine ⟨[Event.queryFix t.id], rfl, ?_, ?_, Or.inl rfl, ?_, ?_, ?_, rfl,
          fun x => rfl, ?_⟩
        · intro e he
          rcases List.mem_singleton.mp he with rfl
          rfl
        · simp [countExec, Event.isExec]
        · constructor
          · intro h; cases h
          · rintro ⟨e, he, hsu⟩
            rcases List.mem_singleton.mp he with rfl
            cases hsu
        · intro h; cases h
        · intro _ e he
          rcases List.mem_singleton.mp he with rfl
          rfl
        · intro f hfix' _
          rcases Option.some_inj.mp hfix' with rfl
          exact ⟨fun hc => absurd hc hconf, fun _ => rfl⟩

/-- Behaviour of the dependency-fix strategy. -/
lemma dep_phase_spec (w : World) (s : OrchState) (t : Task) :
    ∃ d, (dep_phase w s t).1.trace = s.trace ++ d ∧
      (∀ e ∈ d, e.branch = Branch.dep) ∧
      countExec d ≤ 1 ∧
      ((dep_phase w s t).2 = none ∨ (dep_phase w s t).2 = some true) ∧
      ((dep_phase w s t).2 = some true ↔ ∃ e ∈ d, e.isSuccExec = true) ∧
      ((dep_phase w s t).2 = some true →
        (get_task (dep_phase w s t).1.db t.id).map Task.status =
          some TaskStatus.completed) ∧
      ((dep_phase w s t).2 = none → ∀ e ∈ d, e.isSuccExec = false) ∧
      (dep_phase w s t).1.db.errorHistory = s.db.errorHistory ∧
      (∀ x, (get_task (dep_phase w s t).1.db x).isSome =
        (get_task s.db x).isSome) := by
  by_cases hmiss : extract_missing_packages (t.result.getD "") = []
  · have heq : dep_phase w s t = (s, none) := by
      simp [dep_phase, hmiss]
    rw [heq]
    refine ⟨[], by simp, ?_, ?_, Or.inl rfl, ?_, ?_, ?_, rfl, fun x => rfl⟩
    · intro e he; cases he
    · simp [countExec]
    · constructor
      · intro h; cases h
      · rintro ⟨e, he, _⟩; cases he
    · intro h; cases h
    · intro _ e he; cases he
  · have heq : dep_phase w s t =
        run_strategy w Branch.dep
          { db := s.db,
            env := (install_requirements w.envo s.env
              (extract_missing_packages (t.result.getD ""))).1,
            execCount := s.execCount,
            trace := s.trace ++
              [Event.installPkgs (extract_missing_packages (t.result.getD ""))] }
          t.id
          (if w.graph_rag then [Event.storePattern Branch.dep t.id] else []) := by
      simp [dep_phase, hmiss]
    rw [heq]
    obtain ⟨d0, htr, hmem, hcnt, hres, hiff, hst, hnone, heh, _, hsome⟩ :=
      run_strategy_spec w Branch.dep
        { db := s.db,
          env := (install_requirements w.envo s.env
            (extract_missing_packages (t.result.getD ""))).1,
          execCount := s.execCount,
          trace := s.trace ++
            [Event.installPkgs (extract_missing_packages (t.result.getD ""))] }
        t.id
        (if w.graph_rag then [Event.storePattern Branch.dep t.id] else [])
        (by
          cases w.graph_rag with
          | true =>
            intro e he
            rcases List.mem_singleton.mp (by simpa using he) with rfl
            rfl
          | false =>
            intro e he
            simp at he)
    refine ⟨[Event.installPkgs (extract_missing_packages (t.result.getD ""))] ++ d0,
      ?_, ?_, ?_, hres, ?_, hst, ?_, heh, hsome⟩
    · rw [htr]
      simp
    · intro e he
      rcases List.mem_append.mp he with h1 | hd
      · rcases List.mem_singleton.mp h1 with rfl
        rfl
      · rcases hmem e hd with ⟨ok, rfl⟩ | hsp
        · rfl
        · revert hsp
          cases w.graph_rag with
          | true =>
            intro hsp
            rcases List.mem_singleton.mp (by simpa using hsp) with rfl
            rfl
          | false =>
            intro hsp
            simp at hsp
    · rw [countExec_append]
      have h1 : countExec
          [Event.installPkgs (extract_missing_packages (t.result.getD ""))] = 0 := by
        simp [countExec, Event.isExec]
      rw [h1]
      simpa using hcnt
    · rw [hiff]
      constructor
      · rintro ⟨e, he, hsu⟩
        exact ⟨e, List.mem_append.mpr (Or.inr he), hsu⟩
      · rintro ⟨e, he, hsu⟩
        rcases List.mem_append.mp he with h1 | hd
        · rcases List.mem_singleton.mp h1 with rfl
          cases hsu
        · exact ⟨e, hd, hsu⟩
    · intro hn e he
      rcases List.mem_append.mp he with h1 | hd
      · rcases List.mem_singleton.mp h1 with rfl
        rfl
      · exact hnone hn e hd

/-- Behaviour of the generative-repair strategy. -/
lemma gen_phase_spec (w : World) (s : OrchState) (t : Task) :
    ∃ g, (gen_phase w s t).1.trace = s.trace ++ g ∧
      (∀ e ∈ g, e.branch = Branch.gen) ∧
      countExec g ≤ 1 ∧
      Event.llmGenerate t.id ∈ g ∧
      ((gen_phase w s t).2 = true ↔ ∃ e ∈ g, e.isSuccExec = true) ∧
      ((gen_phase w s t).2 = true →
        (get_task (gen_phase w s t).1.db t.id).map Task.status =
          some TaskStatus.completed) ∧
      ((gen_phase w s t).2 = false →
        (∀ e ∈ g, e.isSuccExec = false) ∧
        ((get_task s.db t.id).isSome = true →
          (get_task (gen_phase w s t).1.db t.id).map Task.status =
            some TaskStatus.failed)) ∧
      (gen_phase w s t).1.db.errorHistory = s.db.errorHistory ∧
      (∀ x, (get_task (gen_phase w s t).1.db x).isSome =
        (get_task s.db x).isSome) := by
  have heq : gen_phase w s t =
      run_gen_tail w
        { db := update_task_code s.db t.id
            (w.llm_fixed_code t.code (t.result.getD "")),
          env := s.env, execCount := s.execCount,
          trace := s.trace ++ [Event.llmGenerate t.id] ++
            [Event.updateCode Branch.gen t.id
              (w.llm_fixed_code t.code (t.result.getD ""))] }
        t.id
        (if w.graph_rag then [Event.storePattern Branch.gen t.id] else []) := by
    simp [gen_phase, addTrace]
  rw [heq]
  obtain ⟨d0, htr, hmem, hcnt, hiff, hst, hfail, heh, hsome⟩ :=
    run_gen_tail_spec w
      { db := update_task_code s.db t.id
          (w.llm_fixed_code t.code (t.result.getD "")),
        env := s.env, execCount := s.execCount,
        trace := s.trace ++ [Event.llmGenerate t.id] ++
          [Event.updateCode Branch.gen t.id
            (w.llm_fixed_code t.code (t.result.getD ""))] }
      t.id
      (if w.graph_rag then [Event.storePattern Branch.gen t.id] else [])
      (by
        cases w.graph_rag with
        | true =>
          intro e he
          rcases List.mem_singleton.mp (by simpa using he) with rfl
          rfl
        | false =>
          intro e he
          simp at he)
  refine ⟨[Event.llmGenerate t.id,
      Event.updateCode Branch.gen t.id
        (w.llm_fixed_code t.code (t.result.getD ""))] ++ d0,
    ?_, ?_, ?_, ?_, ?_, hst, ?_, ?_, ?_⟩
  · rw [htr]
    simp
  · intro e he
    rcases List.mem_append.mp he with h2 | hd
    · rcases List.mem_cons.mp h2 with rfl | h3
      · rfl
      · rcases List.mem_singleton.mp h3 with rfl
        rfl
    · rcases hmem e hd with ⟨ok, rfl⟩ | hsp
      · rfl
      · revert hsp
        cases w.graph_rag with
        | true =>
          intro hsp
          rcases List.mem_singleton.mp (by simpa using hsp) with rfl
          rfl
        | false =>
          intro hsp
          simp at hsp
  · rw [countExec_append]
    have h2 : countExec [Event.llmGenerate t.id,
        Event.updateCode Branch.gen t.id
          (w.llm_fixed_code t.code (t.result.getD ""))] = 0 := by
      simp [countExec, Event.isExec]
    rw [h2]
    simpa using hcnt
  · exact List.mem_append.mpr (Or.inl (by simp))
  · rw [hiff]
    constructor
    · rintro ⟨e, he, hsu⟩
      exact ⟨e, List.mem_append.mpr (Or.inr he), hsu⟩
    · rintro ⟨e, he, hsu⟩
      rcases List.mem_append.mp he with h2 | hd
      · rcases List.mem_cons.mp h2 with rfl | h3
        · cases hsu
        · rcases List.mem_singleton.mp h3 with rfl
          cases hsu
      · exact ⟨e, hd, hsu⟩
  · intro hf
    obtain ⟨hall, hstatus⟩ := hfail hf
    constructor
    · intro e he
      rcases List.mem_append.mp he with h2 | hd
      · rcases List.mem_cons.mp h2 with rfl | h3
        · rfl
        · rcases List.mem_singleton.mp h3 with rfl
          rfl
      · exact hall e hd
    · intro hs
      refine hstatus ?_
      rw [isSome_update_code]
      exact hs
  · rw [heh]
    exact update_code_errorHistory s.db t.id _
  · intro x
    rw [hsome x]
    exact isSome_update_code s.db t.id _ x

/-- Full behaviour of one `repair_failed_task` call on an existing failed
task, composing the three strategy phases. -/
lemma repair_spec (w : World) (s : OrchState) (task_id : String) (t : Task)
    (hget : get_task s.db task_id = some t)
    (hst : t.status = TaskStatus.failed) :
    ∃ s' ok l d g, repair_failed_task w s task_id = some (s', ok) ∧
      s'.trace = s.trace ++ l ++ d ++ g ∧
      (∀ e ∈ l, e.branch = Branch.learned) ∧
      (∀ e ∈ d, e.branch = Branch.dep) ∧
      (∀ e ∈ g, e.branch = Branch.gen) ∧
      countExec l ≤ 1 ∧ countExec d ≤ 1 ∧ countExec g ≤ 1 ∧
      ((∃ e ∈ l, e.isSuccExec = true) → d = [] ∧ g = []) ∧
      ((∃ e ∈ d, e.isSuccExec = true) → g = []) ∧
      (ok = true ↔ ∃ e ∈ l ++ d ++ g, e.isSuccExec = true) ∧
      (ok = true → (get_task s'.db task_id).map Task.status =
        some TaskStatus.completed) ∧
      (ok = false → (∀ e ∈ l ++ d ++ g, e.isSuccExec = false) ∧
        Event.llmGenerate task_id ∈ g ∧
        (get_task s'.db task_id).map Task.status = some TaskStatus.failed) ∧
      s'.db.errorHistory = s.db.errorHistory ∧
      (∀ x, (get_task s'.db x).isSome = (get_task s.db x).isSome) ∧
      (∀ f, w.recommended_fix (t.result.getD "") t.code t.description = some f →
        w.graph_rag = true →
        ((f.confidence > (3 : ℚ) / 4 →
            Event.updateCode Branch.learned task_id f.fixed_code ∈ l) ∧
         (¬ f.confidence > (3 : ℚ) / 4 → l = [Event.queryFix task_id]))) := by
  have hid : t.id = task_id := get_task_id hget
  subst hid
  obtain ⟨l, hltr, hltag, hlcnt, hlres, hliff, hlst, hlnone, hleh, hlsome, hlfix⟩ :=
    learned_phase_spec w s t
  rcases hlres with hlp | hlp
  · -- learned phase fell through; run the dependency phase
    obtain ⟨d, hdtr, hdtag, hdcnt, hdres, hdiff, hdst, hdnone, hdeh, hdsome⟩ :=
      dep_phase_spec w (learned_phase w s t).1 t
    rcases hdres with hdp | hdp
    · -- dependency phase fell through; the generative phase decides
      obtain ⟨g, hgtr, hgtag, hgcnt, hgllm, hgiff, hgst, hgfail, hgeh, hgsome⟩ :=
        gen_phase_spec w (dep_phase w (learned_phase w s t).1 t).1 t
      have heq : repair_failed_task w s t.id =
          some ((gen_phase w (dep_phase w (learned_phase w s t).1 t).1 t).1,
            (gen_phase w (dep_phase w (learned_phase w s t).1 t).1 t).2) := by
        simp [repair_failed_task, hget, hst, hlp, hdp]
      refine ⟨_, _, l, d, g, heq, ?_, hltag, hdtag, hgtag, hlcnt, hdcnt, hgcnt,
        ?_, ?_, ?_, ?_, ?_, ?_, ?_, hlfix⟩
      · rw [hgtr, hdtr, hltr]
      · rintro ⟨e, he, hsu⟩
        rw [hlnone hlp e he] at hsu
        cases hsu
      · rintro ⟨e, he, hsu⟩
        rw [hdnone hdp e he] at hsu
        cases hsu
      · constructor
        · intro hok
          obtain ⟨e, he, hsu⟩ := hgiff.mp hok
          exact ⟨e, by simp [he], hsu⟩
        · rintro ⟨e, he, hsu⟩
          rcases List.mem_append.mp he with h1 | hg
          · rcases List.mem_append.mp h1 with hl | hd
            · rw [hlnone hlp e hl] at hsu; cases hsu
            · rw [hdnone hdp e hd] at hsu; cases hsu
          · exact hgiff.mpr ⟨e, hg, hsu⟩
      · exact hgst
      · intro hok
        obtain ⟨hall, hstat⟩ := hgfail hok
        refine ⟨?_, hgllm, ?_⟩
        · intro e he
          rcases List.mem_append.mp he with h1 | hg
          · rcases List.mem_append.mp h1 with hl | hd
            · exact hlnone hlp e hl
            · exact hdnone hdp e hd
          · exact hall e hg
        · refine hstat ?_
          rw [hdsome, hlsome, hget]
          rfl
      · rw [hgeh, hdeh, hleh]
      · intro x
        rw [hgsome x, hdsome x, hlsome x]
    · -- dependency phase succeeded
      have heq : repair_failed_task w s t.id =
          some ((dep_phase w (learned_phase w s t).1 t).1, true) := by
        simp [repair_failed_task, hget, hst, hlp, hdp]
      refine ⟨_, true, l, d, [], heq, ?_, hltag, hdtag, ?_, hlcnt, hdcnt, ?_,
        ?_, fun _ => rfl, ?_, ?_, ?_, ?_, ?_, hlfix⟩
      · rw [hdtr, hltr]
        simp
      · intro e he; cases he
      · simp [countExec]
      · rintro ⟨e, he, hsu⟩
        rw [hlnone hlp e he] at hsu
        cases hsu
      · constructor
        · intro _
          obtain ⟨e, he, hsu⟩ := hdiff.mp hdp
          exact ⟨e, by simp [he], hsu⟩
        · intro _; rfl
      · intro _
        exact hdst hdp
      · intro h; cases h
      · rw [hdeh, hleh]
      · intro x
        rw [hdsome x, hlsome x]
  · -- learned phase succeeded
    have heq : repair_failed_task w s t.id =
        some ((learned_phase w s t).1, true) := by
      simp [repair_failed_task, hget, hst, hlp]
    refine ⟨_, true, l, [], [], heq, ?_, hltag, ?_, ?_, hlcnt, ?_, ?_,
      fun _ => ⟨rfl, rfl⟩, fun _ => rfl, ?_, ?_, ?_, hleh, hlsome, hlfix⟩
    · rw [hltr]
      simp
    · intro e he; cases he
    · intro e he; cases he
    · simp [countExec]
    · simp [countExec]
    · constructor
      · intro _
        obtain ⟨e, he, hsu⟩ := hliff.mp hlp
        exact ⟨e, by simp [he], hsu⟩
      · intro _; rfl
    · intro _
      exact hlst hlp
    · intro h; cases h

/-- Claim C5: one `repair_failed_task` call on an existing failed task runs
at most one learned-fix execution, then at most one
dependency-install-and-retry execution, then at most one generative-repair
execution, in exactly that order (the trace splits into a learned part, a
dep part and a gen part, in that order); it stops at the first strategy
whose re-execution succeeds (no later strategy leaves any event), returning
true with the task marked completed; and it returns false only when the
generative strategy was reached (the LLM was consulted) and no strategy's
re-execution succeeded, leaving the task failed. -/
theorem spec_C5 (w : World) (s : OrchState) (task_id : String) (t : Task)
    (hget : get_task s.db task_id = some t)
    (hst : t.status = TaskStatus.failed) :
    ∃ s' ok l d g, repair_failed_task w s task_id = some (s', ok) ∧
      s'.trace = s.trace ++ l ++ d ++ g ∧
      (∀ e ∈ l, e.branch = Branch.learned) ∧
      (∀ e ∈ d, e.branch = Branch.dep) ∧
      (∀ e ∈ g, e.branch = Branch.gen) ∧
      countExec l ≤ 1 ∧ countExec d ≤ 1 ∧ countExec g ≤ 1 ∧
      ((∃ e ∈ l, e.isSuccExec = true) → d = [] ∧ g = []) ∧
      ((∃ e ∈ d, e.isSuccExec = true) → g = []) ∧
      (ok = true ↔ ∃ e ∈ l ++ d ++ g, e.isSuccExec = true) ∧
      (ok = true → (get_task s'.db task_id).map Task.status =
        some TaskStatus.completed) ∧
      (ok = false → (∀ e ∈ l ++ d ++ g, e.isSuccExec = false) ∧
        Event.llmGenerate task_id ∈ g ∧
        (get_task s'.db task_id).map Task.status = some TaskStatus.failed) := by
  obtain ⟨s', ok, l, d, g, heq, htr, hlt, hdt, hgt, hlc, hdc, hgc, hsc1, hsc2,
    hiff, hcomp, hfail, _, _, _⟩ := repair_spec w s task_id t hget hst
  exact ⟨s', ok, l, d, g, heq, htr, hlt, hdt, hgt, hlc, hdc, hgc, hsc1, hsc2,
    hiff, hcomp, hfail⟩

/-- Witness for C5: a concrete failed task run through the repair chain of
`failWorld` (every strategy fails). -/
theorem spec_C5_witness :
    (get_task { tasks := [taskF], errorHistory := [] } "F" = some taskF) ∧
    taskF.status = TaskStatus.failed ∧
    (∃ s' ok l d g,
      repair_failed_task failWorld
        { db := { tasks := [taskF], errorHistory := [] }, env := env0,
          execCount := 0, trace := [] } "F" = some (s', ok) ∧
      s'.trace = [] ++ l ++ d ++ g ∧
      (∀ e ∈ l, e.branch = Branch.learned) ∧
      (∀ e ∈ d, e.branch = Branch.dep) ∧
      (∀ e ∈ g, e.branch = Branch.gen) ∧
      countExec l ≤ 1 ∧ countExec d ≤ 1 ∧ countExec g ≤ 1 ∧
      ((∃ e ∈ l, e.isSuccExec = true) → d = [] ∧ g = []) ∧
      ((∃ e ∈ d, e.isSuccExec = true) → g = []) ∧
      (ok = true ↔ ∃ e ∈ l ++ d ++ g, e.isSuccExec = true) ∧
      (ok = true → (get_task s'.db "F").map Task.status =
        some TaskStatus.completed) ∧
      (ok = false → (∀ e ∈ l ++ d ++ g, e.isSuccExec = false) ∧
        Event.llmGenerate "F" ∈ g ∧
        (get_task s'.db "F").map Task.status = some TaskStatus.failed)) :=
  ⟨by decide, by decide,
    spec_C5 failWorld
      { db := { tasks := [taskF], errorHistory := [] }, env := env0,
        execCount := 0, trace := [] } "F" taskF (by decide) (by decide)⟩

/-- Claim C6: inside `repair_failed_task` (pattern manager configured, a
recommended fix returned), the learned fix is applied — its code persisted
via `update_task_code` — if and only if its confidence is strictly greater
than 0.75; when the confidence is not above the threshold (e.g. 0.6 or
exactly 0.75) the learned branch contributes nothing beyond the port query:
no code update and no execution carry the learned tag. -/
theorem spec_C6 (w : World) (s : OrchState) (task_id : String) (t : Task)
    (f : RecommendedFix)
    (hget : get_task s.db task_id = some t)
    (hst : t.status = TaskStatus.failed)
    (hgr : w.graph_rag = true)
    (hfix : w.recommended_fix (t.result.getD "") t.code t.description = some f) :
    ∃ s' ok delta, repair_failed_task w s task_id = some (s', ok) ∧
      s'.trace = s.trace ++ delta ∧
      (f.confidence > (3 : ℚ) / 4 ↔
        Event.updateCode Branch.learned task_id f.fixed_code ∈ delta) ∧
      (¬ f.confidence > (3 : ℚ) / 4 →
        ∀ e ∈ delta, e.branch = Branch.learned → e = Event.queryFix task_id) := by
  obtain ⟨s', ok, l, d, g, heq, htr, hlt, hdt, hgt, _, _, _, _, _, _, _, _, _,
    _, hfixc⟩ := repair_spec w s task_id t hget hst
  obtain ⟨hpos, hneg⟩ := hfixc f hfix hgr
  have hnotin : ∀ e, e ∈ d ∨ e ∈ g → e.branch ≠ Branch.learned := by
    intro e he
    rcases he with hd | hg
    · rw [hdt e hd]; intro hx; cases hx
    · rw [hgt e hg]; intro hx; cases hx
  refine ⟨s', ok, l ++ d ++ g, heq, by rw [htr]; simp, ?_, ?_⟩
  · constructor
    · intro hc
      exact List.mem_append.mpr (Or.inl (List.mem_append.mpr (Or.inl (hpos hc))))
    · intro hmem
      by_contra hc
      rw [hneg hc] at hmem
      rcases List.mem_append.mp hmem with h1 | hg
      · rcases List.mem_append.mp h1 with hl | hd
        · rcases List.mem_singleton.mp hl with h2
          cases h2
        · exact absurd rfl (hnotin _ (Or.inl hd))
      · exact absurd rfl (hnotin _ (Or.inr hg))
  · intro hc e hmem hbr
    rcases List.mem_append.mp hmem with h1 | hg
    · rcases List.mem_append.mp h1 with hl | hd
      · rw [hneg hc] at hl
        exact List.mem_singleton.mp hl
      · exact absurd hbr (hnotin e (Or.inl hd))
    · exact absurd hbr (hnotin e (Or.inr hg))

/-- Witness for C6: a failed task repaired under `lowConfWorld`, whose
recommended fix has confidence 0.6. -/
theorem spec_C6_witness :
    (get_task { tasks := [taskF], errorHistory := [] } "F" = some taskF) ∧
    taskF.status = TaskStatus.failed ∧
    lowConfWorld.graph_rag = true ∧
    (∃ s' ok delta,
      repair_failed_task lowConfWorld
        { db := { tasks := [taskF], errorHistory := [] }, env := env0,
          execCount := 0, trace := [] } "F" = some (s', ok) ∧
      s'.trace = [] ++ delta ∧
      (((3 : ℚ) / 5 : ℚ) > (3 : ℚ) / 4 ↔
        Event.updateCode Branch.learned "F" "learnedfix" ∈ delta) ∧
      (¬ ((3 : ℚ) / 5 : ℚ) > (3 : ℚ) / 4 →
        ∀ e ∈ delta, e.branch = Branch.learned → e = Event.queryFix "F")) :=
  ⟨by decide, by decide, rfl,
    spec_C6 lowConfWorld
      { db := { tasks := [taskF], errorHistory := [] }, env := env0,
        execCount := 0, trace := [] } "F" taskF
      { fixed_code := "learnedfix", confidence := 3 / 5 }
      (by decide) (by decide) rfl rfl⟩

/-- Counterexample to C8: a full repair pass on a failed task (all three
strategies run and fail, the call returns false) leaves the error-history
table exactly as it was — empty.  `repair_failed_task`
(auto_plan_agent.py lines 205-372) never calls
`TaskDatabase.add_error_history`; no code in the repository does. -/
theorem spec_C8_counterexample :
    ((repair_failed_task failWorld
        { db := { tasks := [taskF], errorHistory := [] }, env := env0,
          execCount := 0, trace := [] } "F").map
      (fun r => (r.1.db.errorHistory, r.2))) = some ([], false) := by
  decide

/-- Claim C8, amended: the error-history table is append-only —
`add_error_history` only appends one entry and nothing else in the store is
touched by it, and no operation mutates or deletes existing entries — but
repair attempts do not insert into it: `repair_failed_task` returns with the
error-history table exactly as it found it, recording failures only in the
task's result field. -/
theorem spec_C8_amended :
    (∀ (db : TaskDatabase) (tid msg : String) (fix : Option String)
        (succ : Bool) (ts : Nat),
      (add_error_history db tid msg fix succ ts).errorHistory =
        db.errorHistory ++
          [{ task_id := tid, error_message := msg, attempted_fix := fix,
             success := succ, timestamp := ts }] ∧
      (add_error_history db tid msg fix succ ts).tasks = db.tasks) ∧
    (∀ (w : World) (s : OrchState) (task_id : String),
      (repair_failed_task w s task_id).elim True
        (fun r => r.1.db.errorHistory = s.db.errorHistory)) := by
  constructor
  · intro db tid msg fix succ ts
    exact ⟨rfl, rfl⟩
  · intro w s task_id
    cases hget : get_task s.db task_id with
    | none =>
      have : repair_failed_task w s task_id = none := by
        simp [repair_failed_task, hget]
      rw [this]
      trivial
    | some task =>
      by_cases hstat : task.status = TaskStatus.failed
      · obtain ⟨s', ok, l, d, g, heq, _, _, _, _, _, _, _, _, _, _, _, _, heh,
          _, _⟩ := repair_spec w s task_id task hget hstat
        rw [heq]
        exact heh
      · have : repair_failed_task w s task_id = some (s, true) := by
          simp [repair_failed_task, hget, hstat]
        rw [this]
        show s.db.errorHistory = s.db.errorHistory
        rfl

lemma length_filter_mono {α : Type} (p q : α → Bool)
    (h : ∀ a, p a = true → q a = true) (l : List α) :
    (l.filter p).length ≤ (l.filter q).length := by
  induction l with
  | nil => exact Nat.le_refl _
  | cons a l ih =>
    cases hp : p a with
    | true =>
      rw [List.filter_cons_of_pos hp, List.filter_cons_of_pos (h a hp)]
      simpa using ih
    | false =>
      rw [List.filter_cons_of_neg (by rw [hp]; simp)]
      cases hq : q a with
      | true =>
        rw [List.filter_cons_of_pos hq]
        exact Nat.le_trans ih (by simp)
      | false =>
        rw [List.filter_cons_of_neg (by rw [hq]; simp)]
        exact ih

lemma execCountTask_le_countExec (tr : List Event) (tid : String) :
    execCountTask tr tid ≤ countExec tr := by
  refine length_filter_mono _ _ ?_ tr
  intro e he
  cases e <;> simp_all [Event.isExec]

lemma execCountB_eq_zero (tr : List Event) (br : Branch)
    (h : ∀ e ∈ tr, e.branch ≠ br) : execCountB tr br = 0 := by
  unfold execCountB
  rw [List.filter_eq_nil_iff.mpr ?_]
  · rfl
  · intro e he
    cases e with
    | exec b2 tid ok =>
      have := h _ he
      simp only [Event.branch] at this
      simpa using this
    | queryFix tid => simp
    | updateCode b tid c => simp
    | installPkgs ps => simp
    | storePattern b tid => simp
    | llmGenerate tid => simp
    | codeGen tid ok => simp

/-- One repair call adds at most 3 executor runs, none of them tagged as a
top-level attempt. -/
lemma repair_trace_bound (w : World) (s : OrchState) (task_id : String)
    (s' : OrchState) (ok : Bool)
    (h : repair_failed_task w s task_id = some (s', ok)) :
    ∃ delta, s'.trace = s.trace ++ delta ∧ countExec delta ≤ 3 ∧
      execCountB delta Branch.top = 0 := by
  cases hget : get_task s.db task_id with
  | none =>
    rw [show repair_failed_task w s task_id = none by
      simp [repair_failed_task, hget]] at h
    cases h
  | some task =>
    by_cases hstat : task.status = TaskStatus.failed
    · obtain ⟨s'', ok', l, d, g, heq, htr, hlt, hdt, hgt, hlc, hdc, hgc, _, _,
        _, _, _, _, _, _⟩ := repair_spec w s task_id task hget hstat
      rw [heq] at h
      obtain ⟨h1, _⟩ := Prod.mk.injEq .. ▸ Option.some_inj.mp h
      subst h1
      refine ⟨l ++ d ++ g, by rw [htr]; simp, ?_, ?_⟩
      · rw [countExec_append, countExec_append]
        omega
      · refine execCountB_eq_zero _ _ ?_
        intro e he
        rcases List.mem_append.mp he with h1 | hg
        · rcases List.mem_append.mp h1 with hl | hd
          · rw [hlt e hl]; intro hx; cases hx
          · rw [hdt e hd]; intro hx; cases hx
        · rw [hgt e hg]; intro hx; cases hx
    · rw [show repair_failed_task w s task_id = some (s, true) by
        simp [repair_failed_task, hget, hstat]] at h
      obtain ⟨h1, _⟩ := Prod.mk.injEq .. ▸ Option.some_inj.mp h
      subst h1
      exact ⟨[], by simp, by simp [countExec], by simp [execCountB]⟩

/-- Bound on the execute-repair loop with `n + 1` iterations allowed: at
most `n + 1` top-level attempts, and at most `4 * n + 1` executor runs in
total (each of the first `n` iterations can add one top-level run plus up to
3 repair runs; the last adds one). -/
lemma task_attempt_loop_bound (w : World) (task_id : String) :
    ∀ (n : Nat) (s : OrchState),
      ∃ delta, (task_attempt_loop w task_id (n + 1) s).trace =
          s.trace ++ delta ∧
        execCountB delta Branch.top ≤ n + 1 ∧
        countExec delta ≤ 4 * n + 1 := by
  intro n
  induction n with
  | zero =>
    intro s
    obtain ⟨d, htr, hor, _, _, _, _⟩ := executor_spec w Branch.top s task_id
    have heq : task_attempt_loop w task_id 1 s =
        (executor_execute_task w Branch.top s task_id).1 := by
      cases hsucc : (executor_execute_task w Branch.top s task_id).2.success <;>
        simp [task_attempt_loop, hsucc]
    rw [heq]
    refine ⟨d, htr, ?_, ?_⟩ <;>
      rcases hor with rfl | rfl <;>
        simp [execCountB, countExec, Event.isExec]
  | succ n ih =>
    intro s
    obtain ⟨d0, htr0, hor0, _, _, _, _⟩ := executor_spec w Branch.top s task_id
    cases hsucc : (executor_execute_task w Branch.top s task_id).2.success with
    | true =>
      have heq : task_attempt_loop w task_id (n + 2) s =
          (executor_execute_task w Branch.top s task_id).1 := by
        simp [task_attempt_loop, hsucc]
      rw [heq]
      refine ⟨d0, htr0, ?_, ?_⟩ <;>
        rcases hor0 with rfl | rfl <;>
          simp [execCountB, countExec, Event.isExec]
    | false =>
      cases hrep : repair_failed_task w
          (executor_execute_task w Branch.top s task_id).1 task_id with
      | none =>
        have heq : task_attempt_loop w task_id (n + 2) s =
            (executor_execute_task w Branch.top s task_id).1 := by
          simp [task_attempt_loop, hsucc, hrep]
        rw [heq]
        refine ⟨d0, htr0, ?_, ?_⟩ <;>
          rcases hor0 with rfl | rfl <;>
            simp [execCountB, countExec, Event.isExec]
      | some r =>
        obtain ⟨s2, b⟩ := r
        have heq : task_attempt_loop w task_id (n + 2) s =
            task_attempt_loop w task_id (n + 1) s2 := by
          simp [task_attempt_loop, hsucc, hrep]
        rw [heq]
        obtain ⟨deltaR, htrR, hcntR, htopR⟩ :=
          repair_trace_bound w _ task_id s2 b hrep
        obtain ⟨delta2, htr2, htop2, hcnt2⟩ := ih s2
        refine ⟨d0 ++ deltaR ++ delta2, ?_, ?_, ?_⟩
        · rw [htr2, htrR, htr0]
          simp
        · rw [execCountB_append, execCountB_append]
          have hd0 : execCountB d0 Branch.top ≤ 1 := by
            rcases hor0 with rfl | rfl <;> simp [execCountB]
          omega
        · rw [countExec_append, countExec_append]
          have hd0 : countExec d0 ≤ 1 := by
            rcases hor0 with rfl | rfl <;> simp [countExec, Event.isExec]
          omega

/-- Counterexample to C4: with every execution failing on a plain error
("boom", a raw non-module stderr the wired executor does report as a task
result), the execute-repair loop of `execute_plan` invokes the executor on
task A's code 5 times — 3 top-level attempts plus one generative-repair
re-execution inside each of the two repair passes — more than the claimed
budget of 3 total executions.  (Each failing top-level invocation moreover
runs the script up to 3 more times inside the executor's own retry loop,
which only widens the gap.) -/
theorem spec_C4_counterexample :
    execCountTask (execute_plan_core failWorld
      { tasks := [taskA], errorHistory := [] } env0 "p").trace "A" = 5 ∧
    3 < 5 := by
  constructor
  · decide
  · decide

/-- Claim C4, amended: the execute-repair loop of `execute_plan` performs at
most 3 top-level executions of a task; re-executions inside
`repair_failed_task` are not counted against that budget — each of the (at
most 2) repair passes can re-execute up to 3 more times, giving the bound of
9 executor invocations over every oracle (in the wired pipeline, where the
dependency strategy never sees a missing-module result, a persistently
failing task reaches 5: see the counterexample), not at most 3. -/
theorem spec_C4_amended (w : World) (task_id : String) (s : OrchState) :
    ∃ delta, (task_attempt_loop w task_id 3 s).trace = s.trace ++ delta ∧
      execCountB delta Branch.top ≤ 3 ∧
      countExec delta ≤ 9 ∧
      execCountTask delta task_id ≤ 9 := by
  obtain ⟨delta, htr, htop, hcnt⟩ := task_attempt_loop_bound w task_id 2 s
  refine ⟨delta, htr, htop, by omega, ?_⟩
  have := execCountTask_le_countExec delta task_id
  omega

/-- Claim C3 (code bug): in a plan with pending tasks A (no dependencies)
and B (depending on A), both with code, where every execution fails, only A
is runnable at the start, A fails permanently — and yet `execute_plan`
executes B anyway (5 executor invocations) and B leaves pending through
execution, ending failed.  The driving loop of `execute_plan`
(auto_plan_agent.py lines 112-195) iterates the snapshot list filtered only
by pending status and never consults `get_runnable_tasks`. -/
theorem spec_C3_bug :
    (get_runnable_tasks { tasks := [taskA, taskB], errorHistory := [] } =
      [taskA]) ∧
    ((get_task (execute_plan_core failWorld
        { tasks := [taskA, taskB], errorHistory := [] } env0 "p").db "A").map
      Task.status = some TaskStatus.failed) ∧
    (execCountTask (execute_plan_core failWorld
      { tasks := [taskA, taskB], errorHistory := [] } env0 "p").trace "B" = 5) ∧
    ((get_task (execute_plan_core failWorld
        { tasks := [taskA, taskB], errorHistory := [] } env0 "p").db "B").map
      Task.status = some TaskStatus.failed) := by
  refine ⟨by decide, by decide, by decide, by decide⟩

end Cafe
